import Mathlib

/-!
Verification development for the surface-code switcher repository
(`surface_13_code.py`, `surface_17_code.py`, `code_switcher.py`).

The repository simulates stabilizer-code circuits with PennyLane's
`default.qubit` state-vector device.  Every gate the validated code uses
(Hadamard, Pauli X/Y/Z, CNOT, CZ, RY(±π/2)) has a matrix of the form
(1/√2)^s · M with M over ℤ[i] (s = 1 exactly for Hadamard and RY(±π/2)),
so the simulation is embedded exactly over the ring ℤ[√2] + i·ℤ[√2]: an
amplitude is a 4-tuple of integers (ra, rb, ia, ib) denoting
(ra + rb·√2) + (ia + ib·√2)·i, and the simulator applies the √2-scaled
integer matrix of each gate.  After a circuit with h Hadamard/RY gates the
stored state is √2^h times the physical (normalized) state, so a stored
Pauli-string expectation value ⟨ψ, P ψ⟩ equals 2^h times the physical
expectation value: it is 0 exactly when the physical value is 0, its sign
is the physical sign, and stored raw values are equal iff the physical ones
are (two runs of one circuit carry the same h).  Every claim below is
phrased through these scale-free readings (zero tests, sign tests, and
equality of raw values from the same circuit).

A state over n wires is a complete binary tree with 2^n leaves: the node of
a tree over n+1 wires splits on wire n, the highest wire, with the left
subtree the wire-n = 0 half.  The converter's device has 18 wires but its
gates touch only wires 0–9, so evaluations proceed by first peeling the
untouched top wires with the `pad` lemmas proved below.

Python floats (syndrome dictionary values, decoder weights, `random.random()`
draws) appear only in the decoders, which never do arithmetic on them — they
only compare.  They are modelled by `PyRat`, rationals in lowest terms
(every machine float is such a rational, uniquely), carrying their
canonicity proofs so that structural equality is value equality.
-/

/-- Exact scaled amplitude: (ra + rb·√2) + (ia + ib·√2)·i with integer
coefficients. -/
structure Amp where
  ra : Int
  rb : Int
  ia : Int
  ib : Int
deriving DecidableEq, Repr

namespace Amp

def zero : Amp := ⟨0, 0, 0, 0⟩

def one : Amp := ⟨1, 0, 0, 0⟩

/-- The imaginary unit i (the entry of PauliY). -/
def iu : Amp := ⟨0, 0, 1, 0⟩

def add (x y : Amp) : Amp := ⟨x.ra + y.ra, x.rb + y.rb, x.ia + y.ia, x.ib + y.ib⟩

def neg (x : Amp) : Amp := ⟨-x.ra, -x.rb, -x.ia, -x.ib⟩

def sub (x y : Amp) : Amp := add x (neg y)

/-- Product in ℤ[√2] + i·ℤ[√2]: complex multiplication on top of
(a + b√2)(c + d√2) = (ac + 2bd) + (ad + bc)√2. -/
def mul (x y : Amp) : Amp :=
  ⟨x.ra * y.ra + 2 * (x.rb * y.rb) - (x.ia * y.ia + 2 * (x.ib * y.ib)),
   x.ra * y.rb + x.rb * y.ra - (x.ia * y.ib + x.ib * y.ia),
   x.ra * y.ia + 2 * (x.rb * y.ib) + (x.ia * y.ra + 2 * (x.ib * y.rb)),
   x.ra * y.ib + x.rb * y.ia + (x.ia * y.rb + x.ib * y.ra)⟩

/-- Complex conjugate. -/
def conj (x : Amp) : Amp := ⟨x.ra, x.rb, -x.ia, -x.ib⟩

/-- Double an amplitude (the stored form of the identity after a √2-scaled
RY(−π/2)·RY(π/2) pair, since √2·√2 = 2). -/
def double (x : Amp) : Amp := ⟨2 * x.ra, 2 * x.rb, 2 * x.ia, 2 * x.ib⟩

instance : OfNat Amp 0 := ⟨zero⟩

instance : OfNat Amp 1 := ⟨one⟩

instance : Neg Amp := ⟨neg⟩

instance : Add Amp := ⟨add⟩

/-- Decidable positivity of the real part a + b·√2 of an amplitude, used to
model the Python comparison `logical_z > 0`; the compared expectation values
are real, and positive scaling by 2^h preserves the sign. -/
def gtZero (x : Amp) : Bool :=
  (0 < x.ra ∧ 0 ≤ x.rb) ∨ (0 ≤ x.ra ∧ 0 < x.rb) ∨
    (0 < x.ra ∧ x.rb < 0 ∧ 2 * (x.rb * x.rb) < x.ra * x.ra) ∨
    (x.ra < 0 ∧ 0 < x.rb ∧ x.ra * x.ra < 2 * (x.rb * x.rb))

end Amp

/-- State vector over n wires as a complete binary tree of amplitudes.
In `node l r : QVec (n+1)`, wire n (the highest) is 0 in `l` and 1 in `r`. -/
inductive QVec : Nat → Type
  | leaf : Amp → QVec 0
  | node {n : Nat} : QVec n → QVec n → QVec (n + 1)
deriving DecidableEq

namespace QVec

/-- The all-zero vector. -/
def zeroVec : (n : Nat) → QVec n
  | 0 => .leaf Amp.zero
  | n + 1 => .node (zeroVec n) (zeroVec n)

/-- The computational basis state |0…0⟩, PennyLane's initial device state. -/
def initState : (n : Nat) → QVec n
  | 0 => .leaf Amp.one
  | n + 1 => .node (initState n) (zeroVec n)

/-- A state over n+1 wires whose top wire is |0⟩ and untouched. -/
def pad {n : Nat} (v : QVec n) : QVec (n + 1) := .node v (zeroVec n)

def vadd : {n : Nat} → QVec n → QVec n → QVec n
  | _, .leaf a, .leaf b => .leaf (a.add b)
  | _, .node l r, .node l' r' => .node (vadd l l') (vadd r r')

def vneg : {n : Nat} → QVec n → QVec n
  | _, .leaf a => .leaf a.neg
  | _, .node l r => .node (vneg l) (vneg r)

def vsub {n : Nat} (v w : QVec n) : QVec n := vadd v (vneg w)

/-- Scale every amplitude by i (for PauliY). -/
def scaleI : {n : Nat} → QVec n → QVec n
  | _, .leaf a => .leaf (Amp.iu.mul a)
  | _, .node l r => .node (scaleI l) (scaleI r)

/-- Hadamard on wire w, √2-scaled: (l, r) ↦ (l+r, l−r) at w's level. -/
def applyH : {n : Nat} → Nat → QVec n → QVec n
  | _, _, .leaf a => .leaf a
  | _, w, .node (n := m) l r =>
      if w = m then .node (vadd l r) (vsub l r)
      else .node (applyH w l) (applyH w r)

/-- PauliX on wire w: swap the two halves at w's level. -/
def applyX : {n : Nat} → Nat → QVec n → QVec n
  | _, _, .leaf a => .leaf a
  | _, w, .node (n := m) l r =>
      if w = m then .node r l
      else .node (applyX w l) (applyX w r)

/-- PauliZ on wire w: negate the wire-w = 1 half. -/
def applyZ : {n : Nat} → Nat → QVec n → QVec n
  | _, _, .leaf a => .leaf a
  | _, w, .node (n := m) l r =>
      if w = m then .node l (vneg r)
      else .node (applyZ w l) (applyZ w r)

/-- PauliY on wire w: (l, r) ↦ (−i·r, i·l). -/
def applyY : {n : Nat} → Nat → QVec n → QVec n
  | _, _, .leaf a => .leaf a
  | _, w, .node (n := m) l r =>
      if w = m then .node (vneg (scaleI r)) (scaleI l)
      else .node (applyY w l) (applyY w r)

/-- RY(−π/2) on wire w, √2-scaled: (l, r) ↦ (l+r, r−l). -/
def applyRYn : {n : Nat} → Nat → QVec n → QVec n
  | _, _, .leaf a => .leaf a
  | _, w, .node (n := m) l r =>
      if w = m then .node (vadd l r) (vsub r l)
      else .node (applyRYn w l) (applyRYn w r)

/-- RY(π/2) on wire w, √2-scaled: (l, r) ↦ (l−r, l+r). -/
def applyRYp : {n : Nat} → Nat → QVec n → QVec n
  | _, _, .leaf a => .leaf a
  | _, w, .node (n := m) l r =>
      if w = m then .node (vsub l r) (vadd l r)
      else .node (applyRYp w l) (applyRYp w r)

/-- Helper for CNOT whose target is the current split wire: swaps the
wire-c = 1 leaves between the target = 0 tree and the target = 1 tree. -/
def cnotMix : {n : Nat} → Nat → QVec n → QVec n → QVec n × QVec n
  | _, _, .leaf a, .leaf b => (.leaf a, .leaf b)
  | _, c, .node (n := m) a b, .node a' b' =>
      if c = m then (.node a b', .node a' b)
      else
        let x := cnotMix c a a'
        let y := cnotMix c b b'
        (.node x.1 y.1, .node x.2 y.2)

/-- CNOT with control c and target t (c ≠ t, both below the tree size). -/
def applyCNOT : {n : Nat} → Nat → Nat → QVec n → QVec n
  | _, _, _, .leaf a => .leaf a
  | _, c, t, .node (n := m) l r =>
      if c = m then .node l (applyX t r)
      else if t = m then
        let p := cnotMix c l r
        .node p.1 p.2
      else .node (applyCNOT c t l) (applyCNOT c t r)

/-- CZ on wires c and t: negate amplitudes where both wires are 1. -/
def applyCZ : {n : Nat} → Nat → Nat → QVec n → QVec n
  | _, _, _, .leaf a => .leaf a
  | _, c, t, .node (n := m) l r =>
      if c = m then .node l (applyZ t r)
      else if t = m then .node l (applyZ c r)
      else .node (applyCZ c t l) (applyCZ c t r)

/-- Hermitian inner product ⟨v, w⟩ (conjugate-linear in the left slot). -/
def inner : {n : Nat} → QVec n → QVec n → Amp
  | _, .leaf a, .leaf b => a.conj.mul b
  | _, .node l r, .node l' r' => (inner l l').add (inner r r')

/-- Apply PauliZ on every wire in the list. -/
def applyZs : {n : Nat} → List Nat → QVec n → QVec n
  | _, [], v => v
  | _, w :: ws, v => applyZs ws (applyZ w v)

/-- Apply PauliX on every wire in the list. -/
def applyXs : {n : Nat} → List Nat → QVec n → QVec n
  | _, [], v => v
  | _, w :: ws, v => applyXs ws (applyX w v)

/-- Stored expectation value of a product of PauliZ over the listed wires
(2^h times the physical one, for a state built with h scaled gates). -/
def expvalZs {n : Nat} (ws : List Nat) (v : QVec n) : Amp :=
  inner v (applyZs ws v)

/-- Stored expectation value of a product of PauliX over the listed wires. -/
def expvalXs {n : Nat} (ws : List Nat) (v : QVec n) : Amp :=
  inner v (applyXs ws v)

end QVec

/-! ## Gates and circuits

A circuit is a list of gates, mirroring the sequence of `qml.*` calls in the
source.  `CNOT c t` has control c and target t; `CZ c t` follows
`qml.CZ(wires=[c, t])`. -/

/-- One PennyLane gate call from the validated code paths. -/
inductive Gate
  | H (w : Nat)
  | X (w : Nat)
  | Z (w : Nat)
  | Y (w : Nat)
  | RYn (w : Nat)
  | RYp (w : Nat)
  | CNOT (c t : Nat)
  | CZ (c t : Nat)
deriving DecidableEq, Repr

/-- The wires a gate acts on. -/
def Gate.wires : Gate → List Nat
  | .H w => [w]
  | .X w => [w]
  | .Z w => [w]
  | .Y w => [w]
  | .RYn w => [w]
  | .RYp w => [w]
  | .CNOT c t => [c, t]
  | .CZ c t => [c, t]

/-- Apply one gate to the state. -/
def applyGate {n : Nat} : Gate → QVec n → QVec n
  | .H w, v => QVec.applyH w v
  | .X w, v => QVec.applyX w v
  | .Z w, v => QVec.applyZ w v
  | .Y w, v => QVec.applyY w v
  | .RYn w, v => QVec.applyRYn w v
  | .RYp w, v => QVec.applyRYp w v
  | .CNOT c t, v => QVec.applyCNOT c t v
  | .CZ c t, v => QVec.applyCZ c t v

/-- Apply a whole circuit in order. -/
def applyCircuit {n : Nat} : List Gate → QVec n → QVec n
  | [], v => v
  | g :: gs, v => applyCircuit gs (applyGate g v)

/-! ## Machine floats for the decoders

The decoders only compare their numeric inputs (`val in (1, -1)`,
`val < 0`, `weight == 1.0`, `weight == 0.5`, `random.random() < 0.7`), so
floats are modelled as rationals in lowest terms. -/

/-- A rational in lowest terms with positive denominator (the value set of
machine floats, each represented uniquely). -/
structure PyRat where
  num : Int
  den : Nat
  den_pos : 0 < den
  reduced : num.natAbs.Coprime den

instance : DecidableEq PyRat := fun a b =>
  if h : a.num = b.num ∧ a.den = b.den then
    .isTrue (by
      cases a with
      | mk na da pa ca =>
        cases b with
        | mk nb db pb cb =>
          cases h.1
          cases h.2
          rfl)
  else
    .isFalse (by intro hh; cases hh; exact h ⟨rfl, rfl⟩)

namespace PyRat

/-- Value comparison a < b by cross multiplication (denominators positive). -/
def lt (a b : PyRat) : Bool := a.num * (b.den : Int) < b.num * (a.den : Int)

def ofInt (n : Int) : PyRat := ⟨n, 1, Nat.one_pos, Nat.coprime_one_right _⟩

instance : OfNat PyRat 0 := ⟨ofInt 0⟩

instance : OfNat PyRat 1 := ⟨ofInt 1⟩

instance : OfNat PyRat 2 := ⟨ofInt 2⟩

instance : Neg PyRat :=
  ⟨fun a => ⟨-a.num, a.den, a.den_pos, by simpa [Int.natAbs_neg] using a.reduced⟩⟩

/-- The weight 0.5 of the edge Z-stabilizers. -/
def half : PyRat := ⟨1, 2, by omega, by decide⟩

/-- The decoder's random threshold 0.7. -/
def sevenTenths : PyRat := ⟨7, 10, by omega, by decide⟩

/-- A sample random draw below the threshold. -/
def fiveTenths : PyRat := ⟨1, 2, by omega, by decide⟩

/-- A sample random draw above the threshold. -/
def nineTenths : PyRat := ⟨9, 10, by omega, by decide⟩

end PyRat

/-! ## Code registry (the STABILIZERS tables of both modules) -/

/-- Stabilizer generator type, X or Z. -/
inductive PauliType
  | X
  | Z
deriving DecidableEq, Repr

/-- One entry of a STABILIZERS table. -/
structure Stab where
  name : String
  ptype : PauliType
  data : List Nat
  ancilla : Nat
deriving DecidableEq, Repr

/-- STABILIZERS of `surface_13_code.py`. -/
def S13_STABILIZERS : List Stab :=
  [⟨"S1", .X, [0, 3, 6], 9⟩,
   ⟨"S2", .Z, [0, 1, 2], 10⟩,
   ⟨"S3", .Z, [6, 7, 8], 11⟩,
   ⟨"S4", .X, [2, 5, 8], 12⟩]

/-- LOGICAL_X of `surface_13_code.py`. -/
def S13_LOGICAL_X : List Nat := [0, 1, 2]

/-- LOGICAL_Z of `surface_13_code.py`. -/
def S13_LOGICAL_Z : List Nat := [0, 3, 6]

/-- STABILIZERS of `surface_17_code.py`. -/
def S17_STABILIZERS : List Stab :=
  [⟨"S1", .X, [0, 1, 3, 4], 9⟩,
   ⟨"S2", .X, [1, 2], 10⟩,
   ⟨"S3", .X, [4, 5, 7, 8], 11⟩,
   ⟨"S4", .X, [6, 7], 12⟩,
   ⟨"S5", .Z, [0, 3], 13⟩,
   ⟨"S6", .Z, [1, 2, 4, 5], 14⟩,
   ⟨"S7", .Z, [3, 4, 6, 7], 15⟩,
   ⟨"S8", .Z, [5, 8], 16⟩]

/-- LOGICAL_X of `surface_17_code.py`. -/
def S17_LOGICAL_X : List Nat := [2, 4, 6]

/-- LOGICAL_Z of `surface_17_code.py`. -/
def S17_LOGICAL_Z : List Nat := [0, 4, 8]

/-- The stabilizer measurement order used throughout `surface_17_code.py`. -/
def stabNames17 : List String := ["S1", "S2", "S3", "S4", "S5", "S6", "S7", "S8"]

/-! ## Error injection

Both `surface13_circuit` and `prepare_and_measure` guard with
`if error_type and error_qubit is not None:` (so an empty string or a missing
qubit disables injection) and then apply one Pauli gate for X, Z or Y; any
other nonempty type string falls through every `elif` and applies nothing. -/

/-- Gates produced by the error-injection block shared by both codes. -/
def errorGates (et : Option String) (eq : Option Nat) : List Gate :=
  match et, eq with
  | some t, some q =>
      if t = "" then []
      else if t = "X" then [.X q]
      else if t = "Z" then [.Z q]
      else if t = "Y" then [.Y q]
      else []
  | _, _ => []

/-! ## surface13_circuit (`surface_13_code.py`, lines 65–108)

`prepare_logical_zero` is a no-op; the error (if any) is applied first, then
the four stabilizer measurement blocks, then five expectation values.
The circuit contains 4 Hadamards, so stored values are 2^4 times the
physical expectation values. -/

/-- The stabilizer-measurement gate sequence of `surface13_circuit`:
S1 (X-type, ancilla 9), S2 (Z-type, ancilla 10), S3 (Z-type, ancilla 11),
S4 (X-type, ancilla 12), with data supports from S13_STABILIZERS. -/
def s13MeasGates : List Gate :=
  [.H 9] ++ ([0, 3, 6].map (fun q => .CNOT 9 q)) ++ [.H 9]
    ++ ([0, 1, 2].map (fun q => .CNOT q 10))
    ++ ([6, 7, 8].map (fun q => .CNOT q 11))
    ++ [.H 12] ++ ([2, 5, 8].map (fun q => .CNOT 12 q)) ++ [.H 12]

/-- `surface13_circuit(error_type, error_qubit)`: returns the raw (stored)
expectation values [S1, S2, S3, S4, logical Z] as in the source's return. -/
def surface13_circuit (et : Option String) (eq : Option Nat) : List Amp :=
  let v := applyCircuit (errorGates et eq ++ s13MeasGates) (QVec.initState 13)
  [QVec.expvalZs [9] v, QVec.expvalZs [10] v, QVec.expvalZs [11] v,
   QVec.expvalZs [12] v, QVec.expvalZs [0, 3, 6] v]

/-! ## prepare_and_measure (`surface_17_code.py`, lines 36–108) -/

/-- Preparation block for one X-type generator in `prepare_and_measure`:
H(anc), CNOTs anc→data, H(anc), then the ancilla "reset" X(anc). -/
def s17PrepStabGates (s : Stab) : List Gate :=
  match s.ptype with
  | .X => [.H s.ancilla] ++ s.data.map (fun d => .CNOT s.ancilla d)
      ++ [.H s.ancilla, .X s.ancilla]
  | .Z => []

/-- Measurement block for one generator: X-type H–CNOTs–H on the ancilla,
Z-type CNOTs data→ancilla. -/
def stabMeasGates (s : Stab) : List Gate :=
  match s.ptype with
  | .X => [.H s.ancilla] ++ s.data.map (fun d => .CNOT s.ancilla d) ++ [.H s.ancilla]
  | .Z => s.data.map (fun d => .CNOT d s.ancilla)

/-- All gates of `prepare_and_measure`: X-stabilizer preparation, the
logical-X for initial=1, error injection, stabilizer measurement. -/
def s17Gates (initial : Nat) (et : Option String) (eq : Option Nat) : List Gate :=
  (S17_STABILIZERS.flatMap s17PrepStabGates)
    ++ (if initial = 1 then S17_LOGICAL_X.map .X else [])
    ++ errorGates et eq
    ++ (S17_STABILIZERS.flatMap stabMeasGates)

/-- `prepare_and_measure(initial, error_type, error_qubit)`: the raw ancilla
⟨Z⟩ list (one per generator, in table order) and the logical-Z expectation,
both stored (2^16 times physical: the circuit has 16 Hadamards). -/
def prepare_and_measure (initial : Nat) (et : Option String) (eq : Option Nat) :
    List Amp × Amp :=
  let v := applyCircuit (s17Gates initial et eq) (QVec.initState 17)
  (S17_STABILIZERS.map (fun s => QVec.expvalZs [s.ancilla] v),
   QVec.expvalZs S17_LOGICAL_Z v)

/-! ## run_surface17 (`surface_17_code.py`, lines 110–134) -/

/-- The relative-syndrome dictionary built by `run_surface17`:
`{stab: -1.0 if raw[i] != ref[i] else 1.0}` in stabNames17 order.  Both runs
carry the same √2-scale, so stored inequality is physical inequality. -/
def relSyndrome (raw ref : List Amp) : List (String × PyRat) :=
  (stabNames17.zip (raw.zip ref)).map
    (fun p => (p.1, if p.2.1 ≠ p.2.2 then (-1 : PyRat) else 1))

/-- `run_surface17(initial, error_type, error_qubit)`: runs the circuit and a
no-error reference, reports the syndrome relative to the reference, and
collapses the logical readout via `1.0 if logical_z > 0 else -1.0` (the
stored logical value has the physical sign).  The source's if/else on the
no-error case has identical branches, kept here. -/
def run_surface17 (initial : Nat) (et : Option String) (eq : Option Nat) :
    List (String × PyRat) × PyRat :=
  let pm := prepare_and_measure initial et eq
  let ref := prepare_and_measure initial none none
  let syndrome :=
    if et = none ∧ eq = none then relSyndrome pm.1 ref.1
    else relSyndrome pm.1 ref.1
  (syndrome, if Amp.gtZero pm.2 then 1 else -1)

/-! ## code_conversion_circuit (`code_switcher.py`, lines 8–244)

The device has `max(S13_QUBITS, S17_QUBITS) + 1 = 18` wires; the circuit
touches only wires 0–9. -/

/-- The H–CNOTs–H pattern applied on data qubits (first listed qubit plays
the Hadamard role), used by every X-stabilizer block in the converter. -/
def xstabBlock (sd : List Nat) : List Gate :=
  match sd with
  | [] => []
  | a :: rest => [.H a] ++ rest.map (fun q => .CNOT a q) ++ [.H a]

/-- The CZ chain of a Z-stabilizer block in the converter. -/
def czBlock (sd : List Nat) : List Gate :=
  match sd with
  | [] => []
  | a :: rest => rest.map (fun q => .CZ a q)

/-- Error block of the surface13-source branch: the Pauli gate (X/Z/Y only)
plus the extra "syndrome measurement" sub-blocks keyed on the error qubit. -/
def convErrorGates13 (et : Option String) (eq : Option Nat) : List Gate :=
  match et, eq with
  | some t, some q =>
      if t = "" then []
      else
        (if t = "X" then [Gate.X q]
         else if t = "Z" then [Gate.Z q]
         else if t = "Y" then [Gate.Y q]
         else [])
          ++ (if q ∈ [0, 3, 6] then [.H 0, .CNOT 0 3, .CNOT 0 6, .H 0] else [])
          ++ (if q ∈ [2, 5, 8] then [.H 2, .CNOT 2 5, .CNOT 2 8, .H 2] else [])
  | _, _ => []

/-- Error block of the surface17-source branch. -/
def convErrorGates17 (et : Option String) (eq : Option Nat) : List Gate :=
  match et, eq with
  | some t, some q =>
      if t = "" then []
      else
        (if t = "X" then [Gate.X q]
         else if t = "Z" then [Gate.Z q]
         else if t = "Y" then [Gate.Y q]
         else [])
          ++ (if q ∈ [0, 1, 3, 4] then
                [.H 0, .CNOT 0 1, .CNOT 0 3, .CNOT 0 4, .H 0] else [])
          ++ (if q ∈ [5, 8] then [.CZ 5 8] else [])
  | _, _ => []

/-- The initial=1 transfer block: read the source logical-Z support onto
ancilla wire 9, copy to wire 0, then the RY pair on wire 9. -/
def transferBlock (lz : List Nat) : List Gate :=
  [.H 9] ++ lz.map (fun q => .CNOT 9 q) ++ [.H 9, .CNOT 9 0, .RYn 9, .RYp 9]

/-- The "reset" loop of the converter: RY(−π/2) then RY(π/2) on wires 1–8. -/
def resetBlock : List Gate :=
  (List.range' 1 8).flatMap (fun q => [.RYn q, .RYp q])

/-- The fan-out of CNOTs from wire 0 onto wires 1–8. -/
def fanoutBlock : List Gate :=
  (List.range' 1 8).map (fun q => .CNOT 0 q)

/-- Gate sequence of the `source_code == "surface13"` branch. -/
def conv13Gates (initial : Nat) (et : Option String) (eq : Option Nat) : List Gate :=
  xstabBlock [0, 3, 6] ++ xstabBlock [2, 5, 8]
    ++ (if initial = 1 then S13_LOGICAL_X.map .X else [])
    ++ convErrorGates13 et eq
    ++ (if initial = 1 then transferBlock S13_LOGICAL_Z else [])
    ++ resetBlock ++ fanoutBlock
    ++ ([[0, 1, 3, 4], [1, 2], [4, 5, 7, 8], [6, 7]].flatMap xstabBlock)
    ++ ([[0, 3], [1, 2, 4, 5], [3, 4, 6, 7], [5, 8]].flatMap czBlock)
    ++ (if initial = 1 then S17_LOGICAL_X.map .X else [])

/-- Gate sequence of the `source_code == "surface17"` branch. -/
def conv17Gates (initial : Nat) (et : Option String) (eq : Option Nat) : List Gate :=
  ([[0, 1, 3, 4], [1, 2], [4, 5, 7, 8], [6, 7]].flatMap xstabBlock)
    ++ (if initial = 1 then S17_LOGICAL_X.map .X else [])
    ++ convErrorGates17 et eq
    ++ (if initial = 1 then transferBlock S17_LOGICAL_Z else [])
    ++ resetBlock ++ fanoutBlock
    ++ xstabBlock [0, 3, 6] ++ xstabBlock [2, 5, 8]
    ++ ([[0, 1, 2], [6, 7, 8]].flatMap czBlock)
    ++ (if initial = 1 then S13_LOGICAL_X.map .X else [])

/-- `code_conversion_circuit(source, target, initial, error_type, error_qubit)`:
the stored measurement list of the target code, in the source's return order. -/
def code_conversion_circuit (source target : String) (initial : Nat)
    (et : Option String) (eq : Option Nat) : List Amp :=
  let gs := if source = "surface13" then conv13Gates initial et eq
            else conv17Gates initial et eq
  let v := applyCircuit gs (QVec.initState 18)
  if target = "surface13" then
    [QVec.expvalZs [0, 3, 6] v, QVec.expvalXs [0, 1, 2] v,
     QVec.expvalXs [6, 7, 8] v, QVec.expvalZs [2, 5, 8] v,
     QVec.expvalZs [0, 3, 6] v]
  else
    [QVec.expvalXs [0, 1, 3, 4] v, QVec.expvalXs [1, 2] v,
     QVec.expvalXs [4, 5, 7, 8] v, QVec.expvalXs [6, 7] v,
     QVec.expvalZs [0, 3] v, QVec.expvalZs [1, 2, 4, 5] v,
     QVec.expvalZs [3, 4, 6, 7] v, QVec.expvalZs [5, 8] v,
     QVec.expvalZs [0, 4, 8] v]


/-! ## decode_syndrome (`surface_17_code.py`, lines 136–198)

The decoder takes the syndrome dictionary (name → value) and, because the
source calls `random.random()` in its weighted Z branch, an explicit oracle
stream of the random draws (`rand`), consumed in call order; an exhausted
stream reads as 0 (the source stream is infinite). -/

/-- Decoder failure: the `ValueError("Syndrome values must be +1 or -1")`
raise, named after the spec's InvalidSyndromeError. -/
inductive DecodeError
  | invalidSyndrome
deriving DecidableEq, Repr

/-- A decoder output: qubits for X corrections and for Z corrections. -/
structure Correction where
  X : List Nat
  Z : List Nat
deriving DecidableEq, Repr

/-- The `flips` dictionary: `int(val < 0)`, with a missing key read as no
flip (`flips.get` returns None, which is falsy). -/
def flipsOf (syndrome : List (String × PyRat)) (stab : String) : Bool :=
  match syndrome.lookup stab with
  | some v => v.lt 0
  | none => false

/-- The `x_errors` list: MWPM-style pair checks, in source order. -/
def xErrors (flips : String → Bool) : List Nat :=
  (if flips "S1" ∧ flips "S2" then [1] else [])
    ++ (if flips "S3" ∧ flips "S4" then [7] else [])
    ++ (if flips "S1" ∧ flips "S3" then [4] else [])
    ++ (if flips "S2" ∧ flips "S4" then [5] else [])

/-- The `z_weights` dictionary, in iteration order. -/
def zWeights : List (String × PyRat) :=
  [("S5", PyRat.half), ("S6", 1), ("S7", 1), ("S8", PyRat.half)]

/-- First data qubit of a Code-17 generator (`STABILIZERS[stab]["data"][0]`). -/
def stabFirst17 (stab : String) : Nat :=
  ((S17_STABILIZERS.find? (fun s => s.name == stab)).map
    (fun s => s.data.headD 0)).getD 0

/-- The weighted Z-error loop.  `weight == 1.0` appends without drawing;
`weight == 0.5` draws one random number and appends when it is < 0.7
(Python's short-circuit evaluation draws only in the 0.5 case). -/
def zErrorsGo (flips : String → Bool) : List (String × PyRat) → List PyRat → List Nat
  | [], _ => []
  | (stab, weight) :: rest, rand =>
      if flips stab then
        if weight = 1 then stabFirst17 stab :: zErrorsGo flips rest rand
        else if weight = PyRat.half then
          (if (rand.headD 0).lt PyRat.sevenTenths then [stabFirst17 stab] else [])
            ++ zErrorsGo flips rest rand.tail
        else zErrorsGo flips rest rand
      else zErrorsGo flips rest rand

/-- The `z_errors` list after the multiple-error collapse: two or more
weighted Z errors are replaced by the single central qubit [4]. -/
def zCollapsed (syndrome : List (String × PyRat)) (rand : List PyRat) : List Nat :=
  if 2 ≤ (zErrorsGo (flipsOf syndrome) zWeights rand).length then [4]
  else zErrorsGo (flipsOf syndrome) zWeights rand

/-- The corrections built by `decode_syndrome` after validation. -/
def decodeCorrections (syndrome : List (String × PyRat)) (rand : List PyRat) :
    Correction :=
  ⟨(xErrors (flipsOf syndrome)).filter (fun q => q < 9),
   (zCollapsed syndrome rand).filter (fun q => q < 9)⟩

/-- `decode_syndrome(syndrome)` of `surface_17_code.py`, with the random
draws made explicit.  Raises (returns `.error`) exactly when some syndrome
value is not +1 or −1; qubit indices are naturals, so the source's filter
`0 <= q < 9` is the test `q < 9`. -/
def decode_syndrome (syndrome : List (String × PyRat)) (rand : List PyRat) :
    Except DecodeError Correction :=
  if syndrome.all (fun p => p.2 = 1 ∨ p.2 = -1) then
    .ok (decodeCorrections syndrome rand)
  else .error .invalidSyndrome

/-! ## minimum_weight_decoder (`surface_13_code.py`, lines 680–743) -/

/-- Stabilizer name "S(i+1)" for a zero-based index. -/
def stabName (i : Nat) : String := "S" ++ toString (i + 1)

/-- Insertion of a natural into a sorted list (ascending). -/
def insertSorted (x : Nat) : List Nat → List Nat
  | [] => [x]
  | y :: ys => if x ≤ y then x :: y :: ys else y :: insertSorted x ys

/-- Insertion sort, modelling Python's `sorted` on the flipped index list. -/
def sortNat : List Nat → List Nat
  | [] => []
  | x :: xs => insertSorted x (sortNat xs)

/-- The pattern key: "S(i+1)" for each sorted flipped index, comma-joined. -/
def flippedKey (flipped : List Nat) : String :=
  String.intercalate "," ((sortNat flipped).map stabName)

/-- The `error_patterns` table of `minimum_weight_decoder`. -/
def error_patterns (key : String) : Option Correction :=
  if key = "S2" then some ⟨[0], []⟩
  else if key = "S3" then some ⟨[6], []⟩
  else if key = "S1" then some ⟨[], [0]⟩
  else if key = "S4" then some ⟨[], [2]⟩
  else if key = "S1,S2" then some ⟨[0], [0]⟩
  else if key = "S2,S4" then some ⟨[2], [2]⟩
  else if key = "S1,S3" then some ⟨[6], [6]⟩
  else if key = "S3,S4" then some ⟨[8], [8]⟩
  else none

/-- Lookup of a Code-13 generator by name. -/
def stabInfo13 (name : String) : Option Stab :=
  S13_STABILIZERS.find? (fun s => s.name == name)

/-- The fallback loop of `minimum_weight_decoder`: for each flipped
generator, a correction of the opposite type on `data[0]`. -/
def mwDirect (flipped : List Nat) : Correction :=
  flipped.foldl
    (fun acc i =>
      match stabInfo13 (stabName i) with
      | some s =>
          match s.ptype with
          | .X => ⟨acc.X, acc.Z ++ [s.data.headD 0]⟩
          | .Z => ⟨acc.X ++ [s.data.headD 0], acc.Z⟩
      | none => acc)
    ⟨[], []⟩

/-- `minimum_weight_decoder(syndromes)` of `surface_13_code.py`: pattern
table first, per-generator fallback otherwise. -/
def minimum_weight_decoder (syndromes : List PyRat) : Correction :=
  let flipped := (syndromes.enum.filter (fun p => p.2.lt 0)).map (fun p => p.1)
  if flipped = [] then ⟨[], []⟩
  else
    match error_patterns (flippedKey flipped) with
    | some c => c
    | none => mwDirect flipped

/-! ## simulate_surface13 (`surface_13_code.py`, lines 146–183) -/

/-- `simulate_surface13(error_type, error_qubit)`: the combinatorial model
of the expected syndrome — entry i is −1 when the error hits generator i
(X/Y errors hit Z-type generators containing the qubit, Z/Y errors hit
X-type ones), and the trailing logical-Z is −1 when a Z/Y error lies on
the logical-Z support. -/
def simulate_surface13 (et : Option String) (eq : Option Nat) : List PyRat :=
  match et, eq with
  | some t, some q =>
      let syndromes := S13_STABILIZERS.map (fun s =>
        if q ∈ s.data ∧
            (((t = "X" ∨ t = "Y") ∧ s.ptype = .Z) ∨
             ((t = "Z" ∨ t = "Y") ∧ s.ptype = .X))
        then (-1 : PyRat) else 1)
      let lz : PyRat := if (t = "Z" ∨ t = "Y") ∧ q ∈ S13_LOGICAL_Z then -1 else 1
      syndromes ++ [lz]
  | _, _ => [1, 1, 1, 1, 1]

/-! ## Spec-modelled Direct policy (spec §4.4)

The spec's *Direct policy*: "each generator carries an explicit error type
opposite to its own type (X-type generators flag Z corrections, Z-type
generators flag X corrections); for each flipped generator emit a correction
on the first qubit in that generator's support."  These two definitions
follow the spec's words (for each code's generator table) so that the
decoders can be compared against them. -/

/-- Direct policy over Code-13 generators, from the flipped index set. -/
def directPolicy13 (flipped : List Nat) : Correction :=
  flipped.foldl
    (fun acc i =>
      match stabInfo13 (stabName i) with
      | some s =>
          match s.ptype with
          | .X => ⟨acc.X, acc.Z ++ [s.data.headD 0]⟩
          | .Z => ⟨acc.X ++ [s.data.headD 0], acc.Z⟩
      | none => acc)
    ⟨[], []⟩

/-- Direct policy over Code-17 generators, from the flipped name set. -/
def directPolicy17 (flipped : List String) : Correction :=
  flipped.foldl
    (fun acc name =>
      match S17_STABILIZERS.find? (fun s => s.name == name) with
      | some s =>
          match s.ptype with
          | .X => ⟨acc.X, acc.Z ++ [s.data.headD 0]⟩
          | .Z => ⟨acc.X ++ [s.data.headD 0], acc.Z⟩
      | none => acc)
    ⟨[], []⟩

namespace QVec

lemma vadd_zeroVec (n : Nat) : vadd (zeroVec n) (zeroVec n) = zeroVec n := by
  induction n with
  | zero => decide
  | succ k ih => simp [zeroVec, vadd, ih]

lemma vneg_zeroVec (n : Nat) : vneg (zeroVec n) = zeroVec n := by
  induction n with
  | zero => decide
  | succ k ih => simp [zeroVec, vneg, ih]

lemma vsub_zeroVec (n : Nat) : vsub (zeroVec n) (zeroVec n) = zeroVec n := by
  rw [vsub, vneg_zeroVec, vadd_zeroVec]

lemma scaleI_zeroVec (n : Nat) : scaleI (zeroVec n) = zeroVec n := by
  induction n with
  | zero => decide
  | succ k ih => simp [zeroVec, scaleI, ih]

lemma applyH_zeroVec (w : Nat) (n : Nat) : applyH w (zeroVec n) = zeroVec n := by
  induction n with
  | zero => simp [zeroVec, applyH]
  | succ k ih =>
      simp only [zeroVec, applyH]
      split
      · rw [vadd_zeroVec, vsub_zeroVec]
      · rw [ih]

lemma applyX_zeroVec (w : Nat) (n : Nat) : applyX w (zeroVec n) = zeroVec n := by
  induction n with
  | zero => simp [zeroVec, applyX]
  | succ k ih =>
      simp only [zeroVec, applyX]
      split
      · rfl
      · rw [ih]

lemma applyZ_zeroVec (w : Nat) (n : Nat) : applyZ w (zeroVec n) = zeroVec n := by
  induction n with
  | zero => simp [zeroVec, applyZ]
  | succ k ih =>
      simp only [zeroVec, applyZ]
      split
      · rw [vneg_zeroVec]
      · rw [ih]

lemma applyY_zeroVec (w : Nat) (n : Nat) : applyY w (zeroVec n) = zeroVec n := by
  induction n with
  | zero => simp [zeroVec, applyY]
  | succ k ih =>
      simp only [zeroVec, applyY]
      split
      · simp [scaleI_zeroVec, vneg_zeroVec]
      · rw [ih]

lemma applyRYn_zeroVec (w : Nat) (n : Nat) : applyRYn w (zeroVec n) = zeroVec n := by
  induction n with
  | zero => simp [zeroVec, applyRYn]
  | succ k ih =>
      simp only [zeroVec, applyRYn]
      split
      · rw [vadd_zeroVec, vsub_zeroVec]
      · rw [ih]

lemma applyRYp_zeroVec (w : Nat) (n : Nat) : applyRYp w (zeroVec n) = zeroVec n := by
  induction n with
  | zero => simp [zeroVec, applyRYp]
  | succ k ih =>
      simp only [zeroVec, applyRYp]
      split
      · rw [vsub_zeroVec, vadd_zeroVec]
      · rw [ih]

lemma cnotMix_zeroVec (c : Nat) (n : Nat) :
    cnotMix c (zeroVec n) (zeroVec n) = (zeroVec n, zeroVec n) := by
  induction n with
  | zero => simp [zeroVec, cnotMix]
  | succ k ih =>
      simp only [zeroVec, cnotMix]
      split
      · rfl
      · simp [ih]

lemma applyCNOT_zeroVec (c t : Nat) (n : Nat) :
    applyCNOT c t (zeroVec n) = zeroVec n := by
  induction n with
  | zero => simp [zeroVec, applyCNOT]
  | succ k ih =>
      simp only [zeroVec, applyCNOT]
      split
      · rw [applyX_zeroVec]
      · split
        · simp [cnotMix_zeroVec]
        · rw [ih]

lemma applyCZ_zeroVec (c t : Nat) (n : Nat) : applyCZ c t (zeroVec n) = zeroVec n := by
  induction n with
  | zero => simp [zeroVec, applyCZ]
  | succ k ih =>
      simp only [zeroVec, applyCZ]
      split
      · rw [applyZ_zeroVec]
      · split
        · rw [applyZ_zeroVec]
        · rw [ih]

end QVec

/-! pad lemmas -/

namespace QVec

lemma applyH_pad {n : Nat} (w : Nat) (h : w < n) (v : QVec n) :
    applyH w (pad v) = pad (applyH w v) := by
  simp only [pad, applyH, if_neg (Nat.ne_of_lt h), applyH_zeroVec]

lemma applyX_pad {n : Nat} (w : Nat) (h : w < n) (v : QVec n) :
    applyX w (pad v) = pad (applyX w v) := by
  simp only [pad, applyX, if_neg (Nat.ne_of_lt h), applyX_zeroVec]

lemma applyZ_pad {n : Nat} (w : Nat) (h : w < n) (v : QVec n) :
    applyZ w (pad v) = pad (applyZ w v) := by
  simp only [pad, applyZ, if_neg (Nat.ne_of_lt h), applyZ_zeroVec]

lemma applyY_pad {n : Nat} (w : Nat) (h : w < n) (v : QVec n) :
    applyY w (pad v) = pad (applyY w v) := by
  simp only [pad, applyY, if_neg (Nat.ne_of_lt h), applyY_zeroVec]

lemma applyRYn_pad {n : Nat} (w : Nat) (h : w < n) (v : QVec n) :
    applyRYn w (pad v) = pad (applyRYn w v) := by
  simp only [pad, applyRYn, if_neg (Nat.ne_of_lt h), applyRYn_zeroVec]

lemma applyRYp_pad {n : Nat} (w : Nat) (h : w < n) (v : QVec n) :
    applyRYp w (pad v) = pad (applyRYp w v) := by
  simp only [pad, applyRYp, if_neg (Nat.ne_of_lt h), applyRYp_zeroVec]

lemma applyCNOT_pad {n : Nat} (c t : Nat) (hc : c < n) (ht : t < n) (v : QVec n) :
    applyCNOT c t (pad v) = pad (applyCNOT c t v) := by
  simp only [pad, applyCNOT, if_neg (Nat.ne_of_lt hc), if_neg (Nat.ne_of_lt ht),
    applyCNOT_zeroVec]

lemma applyCZ_pad {n : Nat} (c t : Nat) (hc : c < n) (ht : t < n) (v : QVec n) :
    applyCZ c t (pad v) = pad (applyCZ c t v) := by
  simp only [pad, applyCZ, if_neg (Nat.ne_of_lt hc), if_neg (Nat.ne_of_lt ht),
    applyCZ_zeroVec]

end QVec

lemma applyGate_pad {n : Nat} (g : Gate) (hg : ∀ w ∈ g.wires, w < n) (v : QVec n) :
    applyGate g (QVec.pad v) = QVec.pad (applyGate g v) := by
  cases g with
  | H w => exact QVec.applyH_pad w (hg w (by simp [Gate.wires])) v
  | X w => exact QVec.applyX_pad w (hg w (by simp [Gate.wires])) v
  | Z w => exact QVec.applyZ_pad w (hg w (by simp [Gate.wires])) v
  | Y w => exact QVec.applyY_pad w (hg w (by simp [Gate.wires])) v
  | RYn w => exact QVec.applyRYn_pad w (hg w (by simp [Gate.wires])) v
  | RYp w => exact QVec.applyRYp_pad w (hg w (by simp [Gate.wires])) v
  | CNOT c t =>
      exact QVec.applyCNOT_pad c t (hg c (by simp [Gate.wires]))
        (hg t (by simp [Gate.wires])) v
  | CZ c t =>
      exact QVec.applyCZ_pad c t (hg c (by simp [Gate.wires]))
        (hg t (by simp [Gate.wires])) v

/-- Wire bound for every gate in a circuit, as a decidable Bool check. -/
def gatesBelow (n : Nat) (gs : List Gate) : Bool :=
  gs.all (fun g => g.wires.all (fun w => w < n))

lemma applyCircuit_pad {n : Nat} (gs : List Gate) (hg : gatesBelow n gs = true)
    (v : QVec n) : applyCircuit gs (QVec.pad v) = QVec.pad (applyCircuit gs v) := by
  induction gs generalizing v with
  | nil => rfl
  | cons g rest ih =>
      simp only [gatesBelow, List.all_cons, Bool.and_eq_true] at hg
      simp only [applyCircuit]
      rw [applyGate_pad g (by
        intro w hw
        have := List.all_eq_true.mp hg.1 w hw
        simpa using this) v]
      exact ih (by simp [gatesBelow, hg.2]) (applyGate g v)

namespace QVec

lemma inner_zeroVec_zeroVec (n : Nat) : inner (zeroVec n) (zeroVec n) = Amp.zero := by
  induction n with
  | zero => decide
  | succ k ih => simp [zeroVec, inner, ih]; decide

lemma inner_pad {n : Nat} (v w : QVec n) :
    inner (pad v) (pad w) = inner v w := by
  simp only [pad, inner, inner_zeroVec_zeroVec]
  cases inner v w with
  | mk a b c d => simp [Amp.add, Amp.zero]

lemma applyZs_pad {n : Nat} (ws : List Nat) (h : ws.all (fun w => w < n) = true)
    (v : QVec n) : applyZs ws (pad v) = pad (applyZs ws v) := by
  induction ws generalizing v with
  | nil => rfl
  | cons w rest ih =>
      simp only [List.all_cons, Bool.and_eq_true] at h
      simp only [applyZs]
      rw [applyZ_pad w (by simpa using h.1) v]
      exact ih (by simp [h.2]) (applyZ w v)

lemma applyXs_pad {n : Nat} (ws : List Nat) (h : ws.all (fun w => w < n) = true)
    (v : QVec n) : applyXs ws (pad v) = pad (applyXs ws v) := by
  induction ws generalizing v with
  | nil => rfl
  | cons w rest ih =>
      simp only [List.all_cons, Bool.and_eq_true] at h
      simp only [applyXs]
      rw [applyX_pad w (by simpa using h.1) v]
      exact ih (by simp [h.2]) (applyX w v)

lemma expvalZs_pad {n : Nat} (ws : List Nat) (h : ws.all (fun w => w < n) = true)
    (v : QVec n) : expvalZs ws (pad v) = expvalZs ws v := by
  rw [expvalZs, applyZs_pad ws h, inner_pad, expvalZs]

lemma expvalXs_pad {n : Nat} (ws : List Nat) (h : ws.all (fun w => w < n) = true)
    (v : QVec n) : expvalXs ws (pad v) = expvalXs ws v := by
  rw [expvalXs, applyXs_pad ws h, inner_pad, expvalXs]

end QVec

/-- Peeling one untouched top wire off a circuit evaluation over the
all-zero initial state. -/
lemma expvalZs_circuit_init_succ (gs : List Gate) (S : List Nat) (n : Nat)
    (hg : gatesBelow n gs = true) (hS : S.all (fun w => w < n) = true) :
    QVec.expvalZs S (applyCircuit gs (QVec.initState (n + 1))) =
      QVec.expvalZs S (applyCircuit gs (QVec.initState n)) := by
  have hinit : QVec.initState (n + 1) = QVec.pad (QVec.initState n) := rfl
  rw [hinit, applyCircuit_pad gs hg, QVec.expvalZs_pad S hS]

lemma expvalXs_circuit_init_succ (gs : List Gate) (S : List Nat) (n : Nat)
    (hg : gatesBelow n gs = true) (hS : S.all (fun w => w < n) = true) :
    QVec.expvalXs S (applyCircuit gs (QVec.initState (n + 1))) =
      QVec.expvalXs S (applyCircuit gs (QVec.initState n)) := by
  have hinit : QVec.initState (n + 1) = QVec.pad (QVec.initState n) := rfl
  rw [hinit, applyCircuit_pad gs hg, QVec.expvalXs_pad S hS]

lemma gatesBelow_mono {m n : Nat} (h : m ≤ n) (gs : List Gate)
    (hg : gatesBelow m gs = true) : gatesBelow n gs = true := by
  simp only [gatesBelow, List.all_eq_true] at hg ⊢
  intro g hgmem w hw
  have := hg g hgmem w hw
  simp only [decide_eq_true_eq] at this ⊢
  omega

lemma wiresBelow_mono {m n : Nat} (h : m ≤ n) (S : List Nat)
    (hS : S.all (fun w => w < m) = true) : S.all (fun w => w < n) = true := by
  simp only [List.all_eq_true] at hS ⊢
  intro w hw
  have := hS w hw
  simp only [decide_eq_true_eq] at this ⊢
  omega

/-- Peeling all untouched top wires: a circuit whose gates and observable
wires lie below m evaluates identically over any larger register. -/
lemma expvalZs_circuit_init_le (gs : List Gate) (S : List Nat) (m : Nat)
    (hg : gatesBelow m gs = true) (hS : S.all (fun w => w < m) = true) :
    ∀ n, m ≤ n →
      QVec.expvalZs S (applyCircuit gs (QVec.initState n)) =
        QVec.expvalZs S (applyCircuit gs (QVec.initState m)) := by
  intro n hn
  induction n, hn using Nat.le_induction with
  | base => rfl
  | succ k hk ih =>
      rw [expvalZs_circuit_init_succ gs S k (gatesBelow_mono hk gs hg)
        (wiresBelow_mono hk S hS), ih]

lemma expvalXs_circuit_init_le (gs : List Gate) (S : List Nat) (m : Nat)
    (hg : gatesBelow m gs = true) (hS : S.all (fun w => w < m) = true) :
    ∀ n, m ≤ n →
      QVec.expvalXs S (applyCircuit gs (QVec.initState n)) =
        QVec.expvalXs S (applyCircuit gs (QVec.initState m)) := by
  intro n hn
  induction n, hn using Nat.le_induction with
  | base => rfl
  | succ k hk ih =>
      rw [expvalXs_circuit_init_succ gs S k (gatesBelow_mono hk gs hg)
        (wiresBelow_mono hk S hS), ih]

lemma applyCircuit_append {n : Nat} (a b : List Gate) (v : QVec n) :
    applyCircuit (a ++ b) v = applyCircuit b (applyCircuit a v) := by
  induction a generalizing v with
  | nil => rfl
  | cons g rest ih =>
      simp only [List.cons_append, applyCircuit]
      exact ih (applyGate g v)

/-! Commutation and invariance lemmas: a CNOT whose target avoids the wires
of a PauliZ string leaves that string's expectation value unchanged.  These
justify dropping the trailing data→ancilla CNOTs of the Z-stabilizer
measurement when reading the logical-Z observable of `prepare_and_measure`. -/

namespace Amp

lemma add_comm_amp (x y : Amp) : x.add y = y.add x := by
  cases x
  cases y
  simp [Amp.add]
  omega

lemma add_comm4 (p q r s : Amp) : (p.add q).add (r.add s) = (p.add r).add (q.add s) := by
  cases p
  cases q
  cases r
  cases s
  simp [Amp.add]
  omega

lemma add_rearrange (p q r s : Amp) : (p.add s).add (r.add q) = (p.add q).add (r.add s) := by
  cases p
  cases q
  cases r
  cases s
  simp [Amp.add]
  omega

end Amp

namespace QVec

lemma applyX_vneg {n : Nat} (t : Nat) : ∀ v : QVec n, applyX t (vneg v) = vneg (applyX t v) := by
  induction n with
  | zero =>
      intro v
      cases v
      rfl
  | succ m ih =>
      intro v
      cases v with
      | node l r =>
        simp only [vneg, applyX]
        split
        · rfl
        · rw [ih, ih]
          rfl

lemma cnotMix_vneg {n : Nat} (c : Nat) : ∀ a b : QVec n,
    cnotMix c (vneg a) (vneg b) =
      (vneg (cnotMix c a b).1, vneg (cnotMix c a b).2) := by
  induction n with
  | zero =>
      intro a b
      cases a
      cases b
      rfl
  | succ m ih =>
      intro a b
      cases a with
      | node a0 a1 =>
        cases b with
        | node b0 b1 =>
          simp only [vneg, cnotMix]
          split
          · rfl
          · simp only [ih]
            rfl

lemma applyCNOT_vneg {n : Nat} (c t : Nat) : ∀ v : QVec n,
    applyCNOT c t (vneg v) = vneg (applyCNOT c t v) := by
  induction n with
  | zero =>
      intro v
      cases v
      rfl
  | succ m ih =>
      intro v
      cases v with
      | node l r =>
        simp only [vneg, applyCNOT]
        split
        · rw [applyX_vneg]
          rfl
        · split
          · simp only [cnotMix_vneg]
            rfl
          · rw [ih, ih]
            rfl

lemma applyZ_applyX_comm {n : Nat} (w t : Nat) (hwt : w ≠ t) : ∀ v : QVec n,
    applyZ w (applyX t v) = applyX t (applyZ w v) := by
  induction n with
  | zero =>
      intro v
      cases v
      rfl
  | succ m ih =>
      intro v
      cases v with
      | node l r =>
        by_cases hw : w = m
        · subst hw
          have ht : ¬ t = w := fun hh => hwt hh.symm
          simp [applyX, applyZ, if_neg ht, applyX_vneg]
        · by_cases ht : t = m
          · subst ht
            simp [applyX, applyZ, if_neg hw]
          · simp only [applyX, applyZ, if_neg hw, if_neg ht]
            rw [ih, ih]

lemma applyZ_cnotMix {n : Nat} (w c : Nat) : ∀ a b : QVec n,
    cnotMix c (applyZ w a) (applyZ w b) =
      (applyZ w (cnotMix c a b).1, applyZ w (cnotMix c a b).2) := by
  induction n with
  | zero =>
      intro a b
      cases a
      cases b
      rfl
  | succ m ih =>
      intro a b
      cases a with
      | node a0 a1 =>
        cases b with
        | node b0 b1 =>
          by_cases hw : w = m
          · subst hw
            by_cases hc : c = w
            · subst hc
              simp [applyZ, cnotMix]
            · simp [applyZ, cnotMix, if_neg hc, cnotMix_vneg]
          · by_cases hc : c = m
            · subst hc
              simp [applyZ, cnotMix, if_neg hw]
            · simp only [applyZ, cnotMix, if_neg hw, if_neg hc]
              simp [ih]

lemma applyZ_applyCNOT_comm {n : Nat} (w c t : Nat) (hwt : w ≠ t) : ∀ v : QVec n,
    applyZ w (applyCNOT c t v) = applyCNOT c t (applyZ w v) := by
  induction n with
  | zero =>
      intro v
      cases v
      rfl
  | succ m ih =>
      intro v
      cases v with
      | node l r =>
        by_cases hc : c = m
        · subst hc
          by_cases hw : w = c
          · subst hw
            simp [applyCNOT, applyZ, applyX_vneg]
          · simp [applyCNOT, applyZ, if_neg hw, applyZ_applyX_comm w t hwt]
        · by_cases ht : t = m
          · subst ht
            have hw : ¬ w = t := hwt
            simp [applyCNOT, applyZ, if_neg hc, if_neg hw, applyZ_cnotMix]
          · by_cases hw : w = m
            · subst hw
              simp [applyCNOT, applyZ, if_neg hc, if_neg ht, applyCNOT_vneg]
            · simp only [applyCNOT, applyZ, if_neg hc, if_neg ht, if_neg hw]
              rw [ih, ih]

lemma applyZs_applyCNOT_comm {n : Nat} (S : List Nat) (c t : Nat) (hts : t ∉ S) :
    ∀ v : QVec n, applyZs S (applyCNOT c t v) = applyCNOT c t (applyZs S v) := by
  induction S with
  | nil => intro v; rfl
  | cons w ws ih =>
      intro v
      have hwt : w ≠ t := by
        intro hh
        exact hts (hh ▸ List.mem_cons_self w ws)
      simp only [applyZs]
      rw [applyZ_applyCNOT_comm w c t (fun hh => hwt hh)]
      exact ih (fun hh => hts (List.mem_cons_of_mem w hh)) (applyZ w v)

lemma inner_applyX {n : Nat} (w : Nat) : ∀ v u : QVec n,
    inner (applyX w v) (applyX w u) = inner v u := by
  induction n with
  | zero =>
      intro v u
      cases v
      cases u
      rfl
  | succ m ih =>
      intro v u
      cases v with
      | node l r =>
        cases u with
        | node l' r' =>
          simp only [applyX, inner]
          split
          · exact Amp.add_comm_amp _ _
          · simp only [inner]
            rw [ih, ih]

lemma inner_cnotMix {n : Nat} (c : Nat) : ∀ a b a2 b2 : QVec n,
    (inner (cnotMix c a b).1 (cnotMix c a2 b2).1).add
        (inner (cnotMix c a b).2 (cnotMix c a2 b2).2) =
      (inner a a2).add (inner b b2) := by
  induction n with
  | zero =>
      intro a b a2 b2
      cases a
      cases b
      cases a2
      cases b2
      rfl
  | succ m ih =>
      intro a b a2 b2
      cases a with
      | node a0 a1 =>
        cases b with
        | node b0 b1 =>
          cases a2 with
          | node c0 c1 =>
            cases b2 with
            | node d0 d1 =>
              by_cases hc : c = m
              · subst hc
                simp only [cnotMix, if_pos rfl, inner]
                exact Amp.add_rearrange _ _ _ _
              · simp only [cnotMix, if_neg hc, inner]
                rw [Amp.add_comm4, ih, ih, Amp.add_comm4]

lemma inner_applyCNOT {n : Nat} (c t : Nat) : ∀ v u : QVec n,
    inner (applyCNOT c t v) (applyCNOT c t u) = inner v u := by
  induction n with
  | zero =>
      intro v u
      cases v
      cases u
      rfl
  | succ m ih =>
      intro v u
      cases v with
      | node l r =>
        cases u with
        | node l' r' =>
          by_cases hc : c = m
          · subst hc
            simp only [applyCNOT, if_pos rfl, inner]
            rw [inner_applyX]
          · by_cases ht : t = m
            · subst ht
              simp only [applyCNOT, if_pos rfl, if_neg hc, inner]
              exact inner_cnotMix c l r l' r'
            · simp only [applyCNOT, if_neg hc, if_neg ht, inner]
              rw [ih, ih]

lemma expvalZs_applyCNOT {n : Nat} (S : List Nat) (c t : Nat) (hts : t ∉ S)
    (v : QVec n) : expvalZs S (applyCNOT c t v) = expvalZs S v := by
  rw [expvalZs, applyZs_applyCNOT_comm S c t hts, inner_applyCNOT, expvalZs]

end QVec

/-- A gate that is a CNOT whose target misses every wire of S. -/
def cnotAvoiding (S : List Nat) : Gate → Bool
  | .CNOT _ t => decide (t ∉ S)
  | _ => false

lemma expvalZs_cnotCircuit {n : Nat} (S : List Nat) (gs : List Gate)
    (hgs : gs.all (cnotAvoiding S) = true) (v : QVec n) :
    QVec.expvalZs S (applyCircuit gs v) = QVec.expvalZs S v := by
  induction gs generalizing v with
  | nil => rfl
  | cons g rest ih =>
      simp only [List.all_cons, Bool.and_eq_true] at hgs
      cases g with
      | CNOT c t =>
          have hstep : applyCircuit (Gate.CNOT c t :: rest) v =
              applyCircuit rest (QVec.applyCNOT c t v) := rfl
          rw [hstep, ih (by simp [hgs.2]) (QVec.applyCNOT c t v),
            QVec.expvalZs_applyCNOT S c t (of_decide_eq_true (by simpa [cnotAvoiding] using hgs.1))]
      | H w => simp [cnotAvoiding] at hgs
      | X w => simp [cnotAvoiding] at hgs
      | Z w => simp [cnotAvoiding] at hgs
      | Y w => simp [cnotAvoiding] at hgs
      | RYn w => simp [cnotAvoiding] at hgs
      | RYp w => simp [cnotAvoiding] at hgs
      | CZ c t => simp [cnotAvoiding] at hgs


/-! Norm and doubling toolkit: sesquilinearity of the inner product, norm
behaviour of every gate (the √2-scaled gates double the stored norm), and
the RY(−π/2); RY(π/2) pair acting as pointwise doubling. -/

namespace Amp

lemma conj_mul_add_add (x y z w : Amp) :
    (x.add y).conj.mul (z.add w) =
      ((x.conj.mul z).add (x.conj.mul w)).add ((y.conj.mul z).add (y.conj.mul w)) := by
  cases x; cases y; cases z; cases w
  simp only [add, conj, mul, mk.injEq]
  refine ⟨?_, ?_, ?_, ?_⟩ <;> ring

lemma conj_mul_neg_left (x y : Amp) : x.neg.conj.mul y = (x.conj.mul y).neg := by
  cases x; cases y
  simp only [neg, conj, mul, mk.injEq]
  refine ⟨?_, ?_, ?_, ?_⟩ <;> ring

lemma conj_mul_neg_right (x y : Amp) : x.conj.mul y.neg = (x.conj.mul y).neg := by
  cases x; cases y
  simp only [neg, conj, mul, mk.injEq]
  refine ⟨?_, ?_, ?_, ?_⟩ <;> ring

lemma conj_mul_iu (x y : Amp) : (iu.mul x).conj.mul (iu.mul y) = x.conj.mul y := by
  cases x; cases y
  simp only [iu, conj, mul, mk.injEq]
  refine ⟨?_, ?_, ?_, ?_⟩ <;> ring

lemma conj_mul_double (x y : Amp) :
    x.double.conj.mul y.double = (x.conj.mul y).double.double := by
  cases x; cases y
  simp only [double, conj, mul, mk.injEq]
  refine ⟨?_, ?_, ?_, ?_⟩ <;> ring

lemma neg_neg_amp (x : Amp) : x.neg.neg = x := by
  cases x
  simp only [neg, mk.injEq]
  omega

lemma neg_add_amp (x y : Amp) : x.neg.add y.neg = (x.add y).neg := by
  cases x; cases y
  simp only [neg, add, mk.injEq]
  omega

lemma double_add (x y : Amp) : (x.add y).double = x.double.add y.double := by
  cases x; cases y
  simp only [double, add, mk.injEq]
  omega

lemma neg_double (x : Amp) : x.double.neg = x.neg.double := by
  cases x
  simp only [double, neg, mk.injEq]
  omega

lemma mul_double_right (x y : Amp) : x.mul y.double = (x.mul y).double := by
  cases x; cases y
  simp only [double, mul, mk.injEq]
  refine ⟨?_, ?_, ?_, ?_⟩ <;> ring

lemma add_zero_amp (x : Amp) : x.add zero = x := by
  cases x
  simp only [add, zero, mk.injEq]
  omega

lemma h_pair_sum (p q r s : Amp) :
    ((p.add q).add (r.add s)).add ((p.add q.neg).add (r.neg.add s)) = (p.add s).double := by
  cases p; cases q; cases r; cases s
  simp only [add, neg, double, mk.injEq]
  omega

lemma ryn_pair_sum (p q r s : Amp) :
    ((p.add q).add (r.add s)).add ((s.add r.neg).add (q.neg.add p)) = (p.add s).double := by
  cases p; cases q; cases r; cases s
  simp only [add, neg, double, mk.injEq]
  omega

lemma ryp_pair_sum (p q r s : Amp) :
    ((p.add q.neg).add (r.neg.add s)).add ((p.add q).add (r.add s)) = (p.add s).double := by
  cases p; cases q; cases r; cases s
  simp only [add, neg, double, mk.injEq]
  omega

lemma add_shuffle8 (p0 q0 r0 s0 p1 q1 r1 s1 : Amp) :
    ((p0.add q0).add (r0.add s0)).add ((p1.add q1).add (r1.add s1)) =
      ((p0.add p1).add (q0.add q1)).add ((r0.add r1).add (s0.add s1)) := by
  cases p0; cases q0; cases r0; cases s0; cases p1; cases q1; cases r1; cases s1
  simp only [add, mk.injEq]
  omega

/-- Stored amplitude multiplied by 2^k (k doublings). -/
def mulPow2 : Nat → Amp → Amp
  | 0, x => x
  | k + 1, x => mulPow2 k x.double

end Amp

namespace QVec

lemma inner_vadd_vadd {n : Nat} : ∀ a b c d : QVec n,
    inner (vadd a b) (vadd c d) =
      ((inner a c).add (inner a d)).add ((inner b c).add (inner b d)) := by
  induction n with
  | zero =>
      intro a b c d
      cases a
      cases b
      cases c
      cases d
      simp only [vadd, inner]
      exact Amp.conj_mul_add_add _ _ _ _
  | succ m ih =>
      intro a b c d
      cases a with
      | node a0 a1 =>
        cases b with
        | node b0 b1 =>
          cases c with
          | node c0 c1 =>
            cases d with
            | node d0 d1 =>
              simp only [vadd, inner]
              rw [ih, ih]
              exact Amp.add_shuffle8 _ _ _ _ _ _ _ _

lemma inner_vneg_left {n : Nat} : ∀ a b : QVec n, inner (vneg a) b = (inner a b).neg := by
  induction n with
  | zero =>
      intro a b
      cases a
      cases b
      simp only [vneg, inner]
      exact Amp.conj_mul_neg_left _ _
  | succ m ih =>
      intro a b
      cases a with
      | node a0 a1 =>
        cases b with
        | node b0 b1 =>
          simp only [vneg, inner]
          rw [ih, ih, Amp.neg_add_amp]

lemma inner_vneg_right {n : Nat} : ∀ a b : QVec n, inner a (vneg b) = (inner a b).neg := by
  induction n with
  | zero =>
      intro a b
      cases a
      cases b
      simp only [vneg, inner]
      exact Amp.conj_mul_neg_right _ _
  | succ m ih =>
      intro a b
      cases a with
      | node a0 a1 =>
        cases b with
        | node b0 b1 =>
          simp only [vneg, inner]
          rw [ih, ih, Amp.neg_add_amp]

lemma inner_scaleI_scaleI {n : Nat} : ∀ a b : QVec n,
    inner (scaleI a) (scaleI b) = inner a b := by
  induction n with
  | zero =>
      intro a b
      cases a
      cases b
      simp only [scaleI, inner]
      exact Amp.conj_mul_iu _ _
  | succ m ih =>
      intro a b
      cases a with
      | node a0 a1 =>
        cases b with
        | node b0 b1 =>
          simp only [scaleI, inner]
          rw [ih, ih]

lemma inner_applyH {n : Nat} (w : Nat) : ∀ (h : w < n) (v u : QVec n),
    inner (applyH w v) (applyH w u) = (inner v u).double := by
  induction n with
  | zero =>
      intro h
      exact absurd h (Nat.not_lt_zero w)
  | succ m ih =>
      intro h v u
      cases v with
      | node l r =>
        cases u with
        | node l' r' =>
          by_cases hw : w = m
          · subst hw
            simp only [applyH, if_pos rfl, vsub, inner]
            rw [inner_vadd_vadd, inner_vadd_vadd, inner_vneg_right l r',
              inner_vneg_left r l', inner_vneg_left r (vneg r'),
              inner_vneg_right r r', Amp.neg_neg_amp]
            exact Amp.h_pair_sum _ _ _ _
          · simp only [applyH, if_neg hw, inner]
            rw [ih (by omega) l l', ih (by omega) r r']
            exact (Amp.double_add _ _).symm

lemma inner_applyRYn {n : Nat} (w : Nat) : ∀ (h : w < n) (v u : QVec n),
    inner (applyRYn w v) (applyRYn w u) = (inner v u).double := by
  induction n with
  | zero =>
      intro h
      exact absurd h (Nat.not_lt_zero w)
  | succ m ih =>
      intro h v u
      cases v with
      | node l r =>
        cases u with
        | node l' r' =>
          by_cases hw : w = m
          · subst hw
            simp only [applyRYn, if_pos rfl, vsub, inner]
            rw [inner_vadd_vadd, inner_vadd_vadd, inner_vneg_right r l',
              inner_vneg_left l r', inner_vneg_left l (vneg l'),
              inner_vneg_right l l', Amp.neg_neg_amp]
            exact Amp.ryn_pair_sum _ _ _ _
          · simp only [applyRYn, if_neg hw, inner]
            rw [ih (by omega) l l', ih (by omega) r r']
            exact (Amp.double_add _ _).symm

lemma inner_applyRYp {n : Nat} (w : Nat) : ∀ (h : w < n) (v u : QVec n),
    inner (applyRYp w v) (applyRYp w u) = (inner v u).double := by
  induction n with
  | zero =>
      intro h
      exact absurd h (Nat.not_lt_zero w)
  | succ m ih =>
      intro h v u
      cases v with
      | node l r =>
        cases u with
        | node l' r' =>
          by_cases hw : w = m
          · subst hw
            simp only [applyRYp, if_pos rfl, vsub, inner]
            rw [inner_vadd_vadd, inner_vadd_vadd, inner_vneg_right l r',
              inner_vneg_left r l', inner_vneg_left r (vneg r'),
              inner_vneg_right r r', Amp.neg_neg_amp]
            exact Amp.ryp_pair_sum _ _ _ _
          · simp only [applyRYp, if_neg hw, inner]
            rw [ih (by omega) l l', ih (by omega) r r']
            exact (Amp.double_add _ _).symm

lemma inner_applyZ {n : Nat} (w : Nat) : ∀ v u : QVec n,
    inner (applyZ w v) (applyZ w u) = inner v u := by
  induction n with
  | zero =>
      intro v u
      cases v
      cases u
      rfl
  | succ m ih =>
      intro v u
      cases v with
      | node l r =>
        cases u with
        | node l' r' =>
          by_cases hw : w = m
          · subst hw
            simp only [applyZ, if_pos rfl, inner]
            rw [inner_vneg_left, inner_vneg_right, Amp.neg_neg_amp]
          · simp only [applyZ, if_neg hw, inner]
            rw [ih, ih]

lemma inner_applyY {n : Nat} (w : Nat) : ∀ v u : QVec n,
    inner (applyY w v) (applyY w u) = inner v u := by
  induction n with
  | zero =>
      intro v u
      cases v
      cases u
      rfl
  | succ m ih =>
      intro v u
      cases v with
      | node l r =>
        cases u with
        | node l' r' =>
          by_cases hw : w = m
          · subst hw
            simp only [applyY, if_pos rfl, inner]
            rw [inner_vneg_left, inner_vneg_right, Amp.neg_neg_amp,
              inner_scaleI_scaleI, inner_scaleI_scaleI]
            exact Amp.add_comm_amp _ _
          · simp only [applyY, if_neg hw, inner]
            rw [ih, ih]

lemma inner_applyCZ {n : Nat} (c t : Nat) : ∀ v u : QVec n,
    inner (applyCZ c t v) (applyCZ c t u) = inner v u := by
  induction n with
  | zero =>
      intro v u
      cases v
      cases u
      rfl
  | succ m ih =>
      intro v u
      cases v with
      | node l r =>
        cases u with
        | node l' r' =>
          by_cases hc : c = m
          · subst hc
            simp only [applyCZ, if_pos rfl, inner]
            rw [inner_applyZ]
          · by_cases ht : t = m
            · subst ht
              simp only [applyCZ, if_pos rfl, if_neg hc, inner]
              rw [inner_applyZ]
            · simp only [applyCZ, if_neg hc, if_neg ht, inner]
              rw [ih, ih]

lemma applyZ_vneg {n : Nat} (w : Nat) : ∀ v : QVec n, applyZ w (vneg v) = vneg (applyZ w v) := by
  induction n with
  | zero =>
      intro v
      cases v
      rfl
  | succ m ih =>
      intro v
      cases v with
      | node l r =>
        simp only [vneg, applyZ]
        split
        · rfl
        · rw [ih, ih]
          rfl

lemma applyZ_applyZ_comm {n : Nat} (w t : Nat) : ∀ v : QVec n,
    applyZ w (applyZ t v) = applyZ t (applyZ w v) := by
  induction n with
  | zero =>
      intro v
      cases v
      rfl
  | succ m ih =>
      intro v
      cases v with
      | node l r =>
        by_cases hw : w = m
        · by_cases ht : t = m
          · rw [hw, ht]
          · simp only [applyZ, if_pos hw, if_neg ht]
            rw [applyZ_vneg]
        · by_cases ht : t = m
          · simp only [applyZ, if_pos ht, if_neg hw]
            rw [applyZ_vneg]
          · simp only [applyZ, if_neg hw, if_neg ht]
            rw [ih, ih]

lemma applyCZ_vneg {n : Nat} (c t : Nat) : ∀ v : QVec n,
    applyCZ c t (vneg v) = vneg (applyCZ c t v) := by
  induction n with
  | zero =>
      intro v
      cases v
      rfl
  | succ m ih =>
      intro v
      cases v with
      | node l r =>
        by_cases hc : c = m
        · simp only [vneg, applyCZ, if_pos hc]
          rw [applyZ_vneg]
        · by_cases ht : t = m
          · simp only [vneg, applyCZ, if_pos ht, if_neg hc]
            rw [applyZ_vneg]
          · simp only [vneg, applyCZ, if_neg hc, if_neg ht]
            rw [ih, ih]

lemma applyZ_applyCZ_comm {n : Nat} (w c t : Nat) : ∀ v : QVec n,
    applyZ w (applyCZ c t v) = applyCZ c t (applyZ w v) := by
  induction n with
  | zero =>
      intro v
      cases v
      rfl
  | succ m ih =>
      intro v
      cases v with
      | node l r =>
        by_cases hc : c = m
        · by_cases hw : w = m
          · simp only [applyCZ, applyZ, if_pos hc, if_pos hw]
            rw [applyZ_vneg]
          · simp only [applyCZ, applyZ, if_pos hc, if_neg hw]
            rw [applyZ_applyZ_comm]
        · by_cases ht : t = m
          · by_cases hw : w = m
            · simp only [applyCZ, applyZ, if_pos ht, if_neg hc, if_pos hw]
              rw [applyZ_vneg]
            · simp only [applyCZ, applyZ, if_pos ht, if_neg hc, if_neg hw]
              rw [applyZ_applyZ_comm]
          · by_cases hw : w = m
            · simp only [applyCZ, applyZ, if_neg hc, if_neg ht, if_pos hw]
              rw [applyCZ_vneg]
            · simp only [applyCZ, applyZ, if_neg hc, if_neg ht, if_neg hw]
              rw [ih, ih]

lemma applyZs_applyCZ_comm {n : Nat} (S : List Nat) (c t : Nat) (v : QVec n) :
    applyZs S (applyCZ c t v) = applyCZ c t (applyZs S v) := by
  induction S generalizing v with
  | nil => rfl
  | cons w ws ih =>
      simp only [applyZs]
      rw [applyZ_applyCZ_comm, ih]

lemma expvalZs_applyCZ {n : Nat} (S : List Nat) (c t : Nat) (v : QVec n) :
    expvalZs S (applyCZ c t v) = expvalZs S v := by
  rw [expvalZs, applyZs_applyCZ_comm S c t, inner_applyCZ, expvalZs]

end QVec

/-- A gate whose application leaves every PauliZ-string expectation over S
unchanged for sure: a CNOT whose target misses S, or any CZ (diagonal). -/
def zsDroppable (S : List Nat) : Gate → Bool
  | .CNOT _ t => decide (t ∉ S)
  | .CZ _ _ => true
  | _ => false

lemma expvalZs_dropCircuit {n : Nat} (S : List Nat) (gs : List Gate)
    (hgs : gs.all (zsDroppable S) = true) (v : QVec n) :
    QVec.expvalZs S (applyCircuit gs v) = QVec.expvalZs S v := by
  induction gs generalizing v with
  | nil => rfl
  | cons g rest ih =>
      simp only [List.all_cons, Bool.and_eq_true] at hgs
      cases g with
      | CNOT c t =>
          have hstep : applyCircuit (Gate.CNOT c t :: rest) v =
              applyCircuit rest (QVec.applyCNOT c t v) := rfl
          rw [hstep, ih hgs.2 (QVec.applyCNOT c t v),
            QVec.expvalZs_applyCNOT S c t
              (of_decide_eq_true (by simpa [zsDroppable] using hgs.1))]
      | CZ c t =>
          have hstep : applyCircuit (Gate.CZ c t :: rest) v =
              applyCircuit rest (QVec.applyCZ c t v) := rfl
          rw [hstep, ih hgs.2 (QVec.applyCZ c t v), QVec.expvalZs_applyCZ]
      | H w => simp [zsDroppable] at hgs
      | X w => simp [zsDroppable] at hgs
      | Z w => simp [zsDroppable] at hgs
      | Y w => simp [zsDroppable] at hgs
      | RYn w => simp [zsDroppable] at hgs
      | RYp w => simp [zsDroppable] at hgs

namespace QVec

/-- Pointwise doubling of a state (the stored effect of an RY(−π/2); RY(π/2)
pair on the touched wire, since √2·√2 = 2). -/
def vdouble : {n : Nat} → QVec n → QVec n
  | _, .leaf a => .leaf a.double
  | _, .node l r => .node (vdouble l) (vdouble r)

lemma vadd_node {n : Nat} (a b c d : QVec n) :
    vadd (node a b) (node c d) = node (vadd a c) (vadd b d) := rfl

lemma vneg_node {n : Nat} (a b : QVec n) : vneg (node a b) = node (vneg a) (vneg b) := rfl

lemma vsub_node {n : Nat} (a b c d : QVec n) :
    vsub (node a b) (node c d) = node (vsub a c) (vsub b d) := rfl

lemma vdouble_node {n : Nat} (a b : QVec n) :
    vdouble (node a b) = node (vdouble a) (vdouble b) := rfl

lemma vadd_vdouble {n : Nat} : ∀ a b : QVec n,
    vadd (vdouble a) (vdouble b) = vdouble (vadd a b) := by
  induction n with
  | zero =>
      intro a b
      cases a
      cases b
      simp only [vdouble, vadd, QVec.leaf.injEq]
      exact (Amp.double_add _ _).symm
  | succ m ih =>
      intro a b
      cases a with
      | node a0 a1 =>
        cases b with
        | node b0 b1 =>
          simp only [vdouble, vadd]
          rw [ih, ih]

lemma vneg_vdouble {n : Nat} : ∀ a : QVec n, vneg (vdouble a) = vdouble (vneg a) := by
  induction n with
  | zero =>
      intro a
      cases a
      simp only [vdouble, vneg, QVec.leaf.injEq]
      exact Amp.neg_double _
  | succ m ih =>
      intro a
      cases a with
      | node a0 a1 =>
        simp only [vdouble, vneg]
        rw [ih, ih]

lemma scaleI_vdouble {n : Nat} : ∀ a : QVec n, scaleI (vdouble a) = vdouble (scaleI a) := by
  induction n with
  | zero =>
      intro a
      cases a
      simp only [vdouble, scaleI, QVec.leaf.injEq]
      exact Amp.mul_double_right _ _
  | succ m ih =>
      intro a
      cases a with
      | node a0 a1 =>
        simp only [vdouble, scaleI]
        rw [ih, ih]

lemma vsub_vdouble {n : Nat} (a b : QVec n) :
    vsub (vdouble a) (vdouble b) = vdouble (vsub a b) := by
  rw [vsub, vsub, vneg_vdouble, vadd_vdouble]

lemma vsub_vadd_cancel {n : Nat} : ∀ l r : QVec n, vsub (vadd l r) (vsub r l) = vdouble l := by
  induction n with
  | zero =>
      intro l r
      cases l with
      | leaf a =>
        cases r with
        | leaf b =>
          cases a
          cases b
          simp only [vadd, vsub, vneg, vdouble, QVec.leaf.injEq,
            Amp.add, Amp.neg, Amp.double, Amp.mk.injEq]
          omega
  | succ m ih =>
      intro l r
      cases l with
      | node l0 l1 =>
        cases r with
        | node r0 r1 =>
          rw [vadd_node, vsub_node, vsub_node, vdouble_node, ih, ih]

lemma vadd_vadd_cancel {n : Nat} : ∀ l r : QVec n, vadd (vadd l r) (vsub r l) = vdouble r := by
  induction n with
  | zero =>
      intro l r
      cases l with
      | leaf a =>
        cases r with
        | leaf b =>
          cases a
          cases b
          simp only [vadd, vsub, vneg, vdouble, QVec.leaf.injEq,
            Amp.add, Amp.neg, Amp.double, Amp.mk.injEq]
          omega
  | succ m ih =>
      intro l r
      cases l with
      | node l0 l1 =>
        cases r with
        | node r0 r1 =>
          rw [vadd_node, vsub_node, vadd_node, vdouble_node, ih, ih]

/-- The converter's "reset" pair is pointwise doubling: RY(π/2)·RY(−π/2) = 1,
stored with the √2·√2 = 2 scale. -/
lemma applyRYp_applyRYn {n : Nat} (w : Nat) : ∀ (h : w < n) (v : QVec n),
    applyRYp w (applyRYn w v) = vdouble v := by
  induction n with
  | zero =>
      intro h
      exact absurd h (Nat.not_lt_zero w)
  | succ m ih =>
      intro h v
      cases v with
      | node l r =>
        by_cases hw : w = m
        · simp only [applyRYn, applyRYp, if_pos hw, vdouble_node]
          rw [vsub_vadd_cancel, vadd_vadd_cancel]
        · simp only [applyRYn, applyRYp, if_neg hw, vdouble_node]
          rw [ih (by omega), ih (by omega)]

lemma applyH_vdouble {n : Nat} (w : Nat) : ∀ v : QVec n,
    applyH w (vdouble v) = vdouble (applyH w v) := by
  induction n with
  | zero =>
      intro v
      cases v
      rfl
  | succ m ih =>
      intro v
      cases v with
      | node l r =>
        by_cases hw : w = m
        · simp only [vdouble_node, applyH, if_pos hw]
          rw [vadd_vdouble, vsub_vdouble]
        · simp only [vdouble_node, applyH, if_neg hw]
          rw [ih, ih]

lemma applyX_vdouble {n : Nat} (w : Nat) : ∀ v : QVec n,
    applyX w (vdouble v) = vdouble (applyX w v) := by
  induction n with
  | zero =>
      intro v
      cases v
      rfl
  | succ m ih =>
      intro v
      cases v with
      | node l r =>
        by_cases hw : w = m
        · simp only [vdouble_node, applyX, if_pos hw]
        · simp only [vdouble_node, applyX, if_neg hw]
          rw [ih, ih]

lemma applyZ_vdouble {n : Nat} (w : Nat) : ∀ v : QVec n,
    applyZ w (vdouble v) = vdouble (applyZ w v) := by
  induction n with
  | zero =>
      intro v
      cases v
      rfl
  | succ m ih =>
      intro v
      cases v with
      | node l r =>
        by_cases hw : w = m
        · simp only [vdouble_node, applyZ, if_pos hw]
          rw [vneg_vdouble]
        · simp only [vdouble_node, applyZ, if_neg hw]
          rw [ih, ih]

lemma applyY_vdouble {n : Nat} (w : Nat) : ∀ v : QVec n,
    applyY w (vdouble v) = vdouble (applyY w v) := by
  induction n with
  | zero =>
      intro v
      cases v
      rfl
  | succ m ih =>
      intro v
      cases v with
      | node l r =>
        by_cases hw : w = m
        · simp only [vdouble_node, applyY, if_pos hw]
          rw [scaleI_vdouble, scaleI_vdouble, vneg_vdouble]
        · simp only [vdouble_node, applyY, if_neg hw]
          rw [ih, ih]

lemma applyRYn_vdouble {n : Nat} (w : Nat) : ∀ v : QVec n,
    applyRYn w (vdouble v) = vdouble (applyRYn w v) := by
  induction n with
  | zero =>
      intro v
      cases v
      rfl
  | succ m ih =>
      intro v
      cases v with
      | node l r =>
        by_cases hw : w = m
        · simp only [vdouble_node, applyRYn, if_pos hw]
          rw [vadd_vdouble, vsub_vdouble]
        · simp only [vdouble_node, applyRYn, if_neg hw]
          rw [ih, ih]

lemma applyRYp_vdouble {n : Nat} (w : Nat) : ∀ v : QVec n,
    applyRYp w (vdouble v) = vdouble (applyRYp w v) := by
  induction n with
  | zero =>
      intro v
      cases v
      rfl
  | succ m ih =>
      intro v
      cases v with
      | node l r =>
        by_cases hw : w = m
        · simp only [vdouble_node, applyRYp, if_pos hw]
          rw [vadd_vdouble, vsub_vdouble]
        · simp only [vdouble_node, applyRYp, if_neg hw]
          rw [ih, ih]

lemma applyCZ_vdouble {n : Nat} (c t : Nat) : ∀ v : QVec n,
    applyCZ c t (vdouble v) = vdouble (applyCZ c t v) := by
  induction n with
  | zero =>
      intro v
      cases v
      rfl
  | succ m ih =>
      intro v
      cases v with
      | node l r =>
        by_cases hc : c = m
        · simp only [vdouble_node, applyCZ, if_pos hc]
          rw [applyZ_vdouble]
        · by_cases ht : t = m
          · simp only [vdouble_node, applyCZ, if_pos ht, if_neg hc]
            rw [applyZ_vdouble]
          · simp only [vdouble_node, applyCZ, if_neg hc, if_neg ht]
            rw [ih, ih]

lemma cnotMix_vdouble {n : Nat} (c : Nat) : ∀ a b : QVec n,
    cnotMix c (vdouble a) (vdouble b) =
      (vdouble (cnotMix c a b).1, vdouble (cnotMix c a b).2) := by
  induction n with
  | zero =>
      intro a b
      cases a
      cases b
      rfl
  | succ m ih =>
      intro a b
      cases a with
      | node a0 a1 =>
        cases b with
        | node b0 b1 =>
          by_cases hc : c = m
          · simp only [vdouble_node, cnotMix, if_pos hc]
          · simp only [vdouble_node, cnotMix, if_neg hc, ih]

lemma applyCNOT_vdouble {n : Nat} (c t : Nat) : ∀ v : QVec n,
    applyCNOT c t (vdouble v) = vdouble (applyCNOT c t v) := by
  induction n with
  | zero =>
      intro v
      cases v
      rfl
  | succ m ih =>
      intro v
      cases v with
      | node l r =>
        by_cases hc : c = m
        · simp only [vdouble_node, applyCNOT, if_pos hc]
          rw [applyX_vdouble]
        · by_cases ht : t = m
          · simp only [vdouble_node, applyCNOT, if_pos ht, if_neg hc, cnotMix_vdouble]
          · simp only [vdouble_node, applyCNOT, if_neg hc, if_neg ht]
            rw [ih, ih]

lemma inner_vdouble {n : Nat} : ∀ a b : QVec n,
    inner (vdouble a) (vdouble b) = (inner a b).double.double := by
  induction n with
  | zero =>
      intro a b
      cases a
      cases b
      simp only [vdouble, inner]
      exact Amp.conj_mul_double _ _
  | succ m ih =>
      intro a b
      cases a with
      | node a0 a1 =>
        cases b with
        | node b0 b1 =>
          simp only [vdouble, inner]
          rw [ih, ih, ← Amp.double_add, ← Amp.double_add]

lemma applyZs_vdouble {n : Nat} (S : List Nat) (v : QVec n) :
    applyZs S (vdouble v) = vdouble (applyZs S v) := by
  induction S generalizing v with
  | nil => rfl
  | cons w ws ih =>
      simp only [applyZs]
      rw [applyZ_vdouble, ih]

lemma expvalZs_vdouble {n : Nat} (S : List Nat) (v : QVec n) :
    expvalZs S (vdouble v) = (expvalZs S v).double.double := by
  rw [expvalZs, applyZs_vdouble, inner_vdouble, expvalZs]

/-- k nested doublings of a state. -/
def vdoubleIter {n : Nat} : Nat → QVec n → QVec n
  | 0, v => v
  | k + 1, v => vdoubleIter k (vdouble v)

end QVec

lemma applyGate_vdouble {n : Nat} (g : Gate) (v : QVec n) :
    applyGate g (QVec.vdouble v) = QVec.vdouble (applyGate g v) := by
  cases g with
  | H w => exact QVec.applyH_vdouble w v
  | X w => exact QVec.applyX_vdouble w v
  | Z w => exact QVec.applyZ_vdouble w v
  | Y w => exact QVec.applyY_vdouble w v
  | RYn w => exact QVec.applyRYn_vdouble w v
  | RYp w => exact QVec.applyRYp_vdouble w v
  | CNOT c t => exact QVec.applyCNOT_vdouble c t v
  | CZ c t => exact QVec.applyCZ_vdouble c t v

lemma applyCircuit_vdouble {n : Nat} (gs : List Gate) (v : QVec n) :
    applyCircuit gs (QVec.vdouble v) = QVec.vdouble (applyCircuit gs v) := by
  induction gs generalizing v with
  | nil => rfl
  | cons g rest ih =>
      simp only [applyCircuit]
      rw [applyGate_vdouble, ih]

lemma applyCircuit_vdoubleIter {n : Nat} (k : Nat) (gs : List Gate) : ∀ v : QVec n,
    applyCircuit gs (QVec.vdoubleIter k v) = QVec.vdoubleIter k (applyCircuit gs v) := by
  induction k generalizing gs with
  | zero => intro v; rfl
  | succ j ih =>
      intro v
      simp only [QVec.vdoubleIter]
      rw [ih, applyCircuit_vdouble]

lemma expvalZs_vdoubleIter {n : Nat} (S : List Nat) : ∀ (k : Nat) (v : QVec n),
    QVec.expvalZs S (QVec.vdoubleIter k v) = Amp.mulPow2 (2 * k) (QVec.expvalZs S v) := by
  intro k
  induction k with
  | zero => intro v; rfl
  | succ j ih =>
      intro v
      have h2 : 2 * (j + 1) = (2 * j) + 1 + 1 := by omega
      simp only [QVec.vdoubleIter]
      rw [ih, QVec.expvalZs_vdouble, h2]
      rfl

/-- The RY(−π/2); RY(π/2) pair on each listed wire, in order (the shape of
the converter's reset loop and of the transfer block's trailing pair). -/
def pairBlock (qs : List Nat) : List Gate :=
  qs.flatMap (fun q => [.RYn q, .RYp q])

lemma resetBlock_eq_pairBlock : resetBlock = pairBlock (List.range' 1 8) := rfl

lemma applyCircuit_pairBlock {n : Nat} : ∀ (qs : List Nat)
    (h : qs.all (fun q => decide (q < n)) = true) (v : QVec n),
    applyCircuit (pairBlock qs) v = QVec.vdoubleIter qs.length v := by
  intro qs
  induction qs with
  | nil => intro h v; rfl
  | cons q rest ih =>
      intro h v
      simp only [List.all_cons, Bool.and_eq_true, decide_eq_true_eq] at h
      have hstep : applyCircuit (pairBlock (q :: rest)) v =
          applyCircuit (pairBlock rest) (QVec.applyRYp q (QVec.applyRYn q v)) := rfl
      rw [hstep, QVec.applyRYp_applyRYn q h.1 v,
        ih (by simp only [List.all_eq_true] at h ⊢; exact fun x hx => h.2 x hx) (QVec.vdouble v)]
      rfl

/-- The √2-scaled gates: Hadamard and the two RY rotations. -/
def Gate.scaled : Gate → Bool
  | .H _ => true
  | .RYn _ => true
  | .RYp _ => true
  | _ => false

/-- Wire-bound check needed by the norm computation (only the scaled gates
need their wire inside the register). -/
def gateOkN (n : Nat) : Gate → Bool
  | .H w => decide (w < n)
  | .RYn w => decide (w < n)
  | .RYp w => decide (w < n)
  | _ => true

lemma inner_applyGate_self {n : Nat} (g : Gate) (hg : gateOkN n g = true) (v : QVec n) :
    QVec.inner (applyGate g v) (applyGate g v) =
      if Gate.scaled g then (QVec.inner v v).double else QVec.inner v v := by
  cases g with
  | H w =>
      simp only [gateOkN, decide_eq_true_eq] at hg
      simp only [applyGate, Gate.scaled, if_pos]
      exact QVec.inner_applyH w hg v v
  | X w =>
      simp only [applyGate, Gate.scaled, if_neg]
      exact QVec.inner_applyX w v v
  | Z w =>
      simp only [applyGate, Gate.scaled, if_neg]
      exact QVec.inner_applyZ w v v
  | Y w =>
      simp only [applyGate, Gate.scaled, if_neg]
      exact QVec.inner_applyY w v v
  | RYn w =>
      simp only [gateOkN, decide_eq_true_eq] at hg
      simp only [applyGate, Gate.scaled, if_pos]
      exact QVec.inner_applyRYn w hg v v
  | RYp w =>
      simp only [gateOkN, decide_eq_true_eq] at hg
      simp only [applyGate, Gate.scaled, if_pos]
      exact QVec.inner_applyRYp w hg v v
  | CNOT c t =>
      simp only [applyGate, Gate.scaled, if_neg]
      exact QVec.inner_applyCNOT c t v v
  | CZ c t =>
      simp only [applyGate, Gate.scaled, if_neg]
      exact QVec.inner_applyCZ c t v v

lemma expvalZs_nil_eq_inner {n : Nat} (v : QVec n) :
    QVec.expvalZs [] v = QVec.inner v v := rfl

/-- Norm growth of a circuit: every √2-scaled gate doubles the stored
squared norm, every other gate preserves it. -/
lemma norm_applyCircuit {n : Nat} (gs : List Gate)
    (hgs : gs.all (gateOkN n) = true) : ∀ v : QVec n,
    QVec.expvalZs [] (applyCircuit gs v) =
      Amp.mulPow2 (List.countP Gate.scaled gs) (QVec.expvalZs [] v) := by
  induction gs with
  | nil => intro v; rfl
  | cons g rest ih =>
      intro v
      simp only [List.all_cons, Bool.and_eq_true] at hgs
      have hstep : applyCircuit (g :: rest) v = applyCircuit rest (applyGate g v) := rfl
      rw [hstep, ih hgs.2 (applyGate g v), expvalZs_nil_eq_inner,
        inner_applyGate_self g hgs.1 v, List.countP_cons]
      by_cases hsc : Gate.scaled g = true
      · rw [if_pos hsc, if_pos hsc]
        rfl
      · rw [if_neg hsc, if_neg hsc, Nat.add_zero]
        rfl

lemma norm_initState : ∀ n : Nat, QVec.expvalZs [] (QVec.initState n) = 1 := by
  intro n
  induction n with
  | zero => decide
  | succ m ih =>
      show (QVec.inner (QVec.initState m) (QVec.initState m)).add
          (QVec.inner (QVec.zeroVec m) (QVec.zeroVec m)) = 1
      rw [QVec.inner_zeroVec_zeroVec]
      have h1 : QVec.inner (QVec.initState m) (QVec.initState m) = 1 := ih
      rw [h1]
      decide

/-! Split forms of the converter circuits: preparation, the RY-pair run
(reset loop, plus the transfer block's trailing pair when initial = 1),
the fan-out and target-stabilizer part, and the trailing CZ chains. -/

/-- Source preparation of the surface13 branch (its two X-stabilizer blocks). -/
def convA0pre : List Gate := xstabBlock [0, 3, 6] ++ xstabBlock [2, 5, 8]

/-- Fan-out and target X-stabilizer blocks of the surface17 target. -/
def convPost17 : List Gate :=
  fanoutBlock ++ ([[0, 1, 3, 4], [1, 2], [4, 5, 7, 8], [6, 7]].flatMap xstabBlock)

/-- Trailing CZ chains of the surface17 target. -/
def convCZ17 : List Gate := [[0, 3], [1, 2, 4, 5], [3, 4, 6, 7], [5, 8]].flatMap czBlock

/-- Source preparation of the surface17 branch. -/
def convB0pre : List Gate := [[0, 1, 3, 4], [1, 2], [4, 5, 7, 8], [6, 7]].flatMap xstabBlock

/-- Fan-out and target X-stabilizer blocks of the surface13 target. -/
def convPost13 : List Gate := fanoutBlock ++ xstabBlock [0, 3, 6] ++ xstabBlock [2, 5, 8]

/-- Trailing CZ chains of the surface13 target. -/
def convCZ13 : List Gate := [[0, 1, 2], [6, 7, 8]].flatMap czBlock

/-- Preparation of the surface13 branch with initial = 1: stabilizer blocks,
logical X, and the transfer block up to its RY pair. -/
def convA1pre : List Gate :=
  convA0pre ++ [.X 0, .X 1, .X 2, .H 9, .CNOT 9 0, .CNOT 9 3, .CNOT 9 6, .H 9, .CNOT 9 0]

/-- Tail of the surface13→17, initial = 1 circuit (CZs and the final
logical X are kept inside the evaluation). -/
def convA1post : List Gate := convPost17 ++ convCZ17 ++ [.X 2, .X 4, .X 6]

/-- Preparation of the surface17 branch with initial = 1. -/
def convB1pre : List Gate :=
  convB0pre ++ [.X 2, .X 4, .X 6, .H 9, .CNOT 9 0, .CNOT 9 4, .CNOT 9 8, .H 9, .CNOT 9 0]

/-- Tail of the surface17→13, initial = 1 circuit. -/
def convB1post : List Gate := convPost13 ++ convCZ13 ++ [.X 0, .X 1, .X 2]

lemma conv13_0_split : conv13Gates 0 none none =
    ((convA0pre ++ pairBlock (List.range' 1 8)) ++ convPost17) ++ convCZ17 := by
  decide

lemma conv13_1_split : conv13Gates 1 none none =
    (convA1pre ++ pairBlock (9 :: List.range' 1 8)) ++ convA1post := by
  decide

lemma conv17_0_split : conv17Gates 0 none none =
    ((convB0pre ++ pairBlock (List.range' 1 8)) ++ convPost13) ++ convCZ13 := by
  decide

lemma conv17_1_split : conv17Gates 1 none none =
    (convB1pre ++ pairBlock (9 :: List.range' 1 8)) ++ convB1post := by
  decide

/-- Evaluate a split circuit: drop the trailing CZ chain, turn the RY-pair
run into 2·(number of pairs) stored doublings, and keep the rest. -/
lemma expvalZs_split_eval {n : Nat} (S : List Nat) (pre post cz : List Gate)
    (qs : List Nat) (hq : qs.all (fun q => decide (q < n)) = true)
    (hcz : cz.all (zsDroppable S) = true) :
    QVec.expvalZs S
        (applyCircuit (((pre ++ pairBlock qs) ++ post) ++ cz) (QVec.initState n)) =
      Amp.mulPow2 (2 * qs.length)
        (QVec.expvalZs S (applyCircuit (pre ++ post) (QVec.initState n))) := by
  rw [applyCircuit_append, expvalZs_dropCircuit S cz hcz,
    applyCircuit_append, applyCircuit_append,
    applyCircuit_pairBlock qs hq, applyCircuit_vdoubleIter,
    expvalZs_vdoubleIter, ← applyCircuit_append]

lemma expvalZs_split_eval2 {n : Nat} (S : List Nat) (pre post : List Gate)
    (qs : List Nat) (hq : qs.all (fun q => decide (q < n)) = true) :
    QVec.expvalZs S
        (applyCircuit ((pre ++ pairBlock qs) ++ post) (QVec.initState n)) =
      Amp.mulPow2 (2 * qs.length)
        (QVec.expvalZs S (applyCircuit (pre ++ post) (QVec.initState n))) := by
  rw [applyCircuit_append, applyCircuit_append,
    applyCircuit_pairBlock qs hq, applyCircuit_vdoubleIter,
    expvalZs_vdoubleIter, ← applyCircuit_append]


/-! ## Evaluation reductions

`prepare_and_measure`'s logical-Z readout: the trailing Z-stabilizer
measurement blocks are data→ancilla CNOTs whose targets (13–16) avoid the
logical-Z support {0,4,8}, so they drop by the commutation lemma; the
remaining gates touch only wires 0–12, so the top four wires peel off. -/

/-- Gates of `prepare_and_measure` before the Z-stabilizer measurements
(no error, initial = 0): preparation plus the four X-stabilizer blocks. -/
def s17HeadGates : List Gate :=
  (S17_STABILIZERS.flatMap s17PrepStabGates)
    ++ ((S17_STABILIZERS.take 4).flatMap stabMeasGates)

/-- The trailing Z-stabilizer measurement CNOTs of `prepare_and_measure`. -/
def s17ZMeasGates : List Gate := (S17_STABILIZERS.drop 4).flatMap stabMeasGates

lemma s17Gates_eq_split : s17Gates 0 none none = s17HeadGates ++ s17ZMeasGates := by
  decide

lemma pm0_logical_raw : (prepare_and_measure 0 none none).2 =
    QVec.expvalZs S17_LOGICAL_Z (applyCircuit s17HeadGates (QVec.initState 13)) := by
  show QVec.expvalZs S17_LOGICAL_Z
      (applyCircuit (s17Gates 0 none none) (QVec.initState 17)) = _
  rw [s17Gates_eq_split, applyCircuit_append,
    expvalZs_cnotCircuit S17_LOGICAL_Z s17ZMeasGates (by decide),
    expvalZs_circuit_init_le s17HeadGates S17_LOGICAL_Z 13 (by decide) (by decide) 17
      (by omega)]

/-- The stored logical-Z raw value of the no-error initial=0 Code-17 run is
exactly 2^16 (the circuit has 16 Hadamards): the physical value is exactly +1. -/
lemma pm0_logical_value : (prepare_and_measure 0 none none).2 = ⟨65536, 0, 0, 0⟩ := by
  rw [pm0_logical_raw]
  decide!

lemma relSyndrome_refl8 (a b c d e f g h : Amp) :
    relSyndrome [a, b, c, d, e, f, g, h] [a, b, c, d, e, f, g, h] =
      stabNames17.map (fun s => (s, 1)) := by
  simp [relSyndrome, stabNames17]

/-- With no injected error, `run_surface17`'s circuit run IS its reference
run, so the relative syndrome is identically +1. -/
lemma run17_noerr_syndrome (initial : Nat) :
    (run_surface17 initial none none).1 = stabNames17.map (fun s => (s, 1)) :=
  relSyndrome_refl8 _ _ _ _ _ _ _ _

/-! Conversion-circuit reductions: the converter's gates and observables live
on wires 0–9, so the 18-wire evaluation peels to a 10-wire one. -/

lemma conv_13_17_0_red :
    (code_conversion_circuit "surface13" "surface17" 0 none none).getLast? =
      some (QVec.expvalZs [0, 4, 8]
        (applyCircuit (conv13Gates 0 none none) (QVec.initState 9))) := by
  have h : (code_conversion_circuit "surface13" "surface17" 0 none none).getLast? =
      some (QVec.expvalZs [0, 4, 8]
        (applyCircuit (conv13Gates 0 none none) (QVec.initState 18))) := rfl
  rw [h, expvalZs_circuit_init_le (conv13Gates 0 none none) [0, 4, 8] 9
    (by decide) (by decide) 18 (by omega)]

lemma conv_13_17_1_red :
    (code_conversion_circuit "surface13" "surface17" 1 none none).getLast? =
      some (QVec.expvalZs [0, 4, 8]
        (applyCircuit (conv13Gates 1 none none) (QVec.initState 10))) := by
  have h : (code_conversion_circuit "surface13" "surface17" 1 none none).getLast? =
      some (QVec.expvalZs [0, 4, 8]
        (applyCircuit (conv13Gates 1 none none) (QVec.initState 18))) := rfl
  rw [h, expvalZs_circuit_init_le (conv13Gates 1 none none) [0, 4, 8] 10
    (by decide) (by decide) 18 (by omega)]

lemma conv_17_13_0_red :
    (code_conversion_circuit "surface17" "surface13" 0 none none).getLast? =
      some (QVec.expvalZs [0, 3, 6]
        (applyCircuit (conv17Gates 0 none none) (QVec.initState 9))) := by
  have h : (code_conversion_circuit "surface17" "surface13" 0 none none).getLast? =
      some (QVec.expvalZs [0, 3, 6]
        (applyCircuit (conv17Gates 0 none none) (QVec.initState 18))) := rfl
  rw [h, expvalZs_circuit_init_le (conv17Gates 0 none none) [0, 3, 6] 9
    (by decide) (by decide) 18 (by omega)]

lemma conv_17_13_1_red :
    (code_conversion_circuit "surface17" "surface13" 1 none none).getLast? =
      some (QVec.expvalZs [0, 3, 6]
        (applyCircuit (conv17Gates 1 none none) (QVec.initState 10))) := by
  have h : (code_conversion_circuit "surface17" "surface13" 1 none none).getLast? =
      some (QVec.expvalZs [0, 3, 6]
        (applyCircuit (conv17Gates 1 none none) (QVec.initState 18))) := rfl
  rw [h, expvalZs_circuit_init_le (conv17Gates 1 none none) [0, 3, 6] 10
    (by decide) (by decide) 18 (by omega)]

/-- The converter's state after its preparation (the two source X-stabilizer
blocks) followed by step 4, the "reset" loop on qubits 1–8. -/
def conv13PrepResetGates : List Gate :=
  xstabBlock [0, 3, 6] ++ xstabBlock [2, 5, 8] ++ resetBlock

lemma conv13PrepReset_split : conv13PrepResetGates =
    (convA0pre ++ pairBlock (List.range' 1 8)) ++ [] := by
  decide


instance {ε α : Type} [DecidableEq ε] [DecidableEq α] : DecidableEq (Except ε α) :=
  fun a b =>
    match a, b with
    | .ok x, .ok y =>
        if h : x = y then .isTrue (congrArg Except.ok h)
        else .isFalse (fun hh => h (Except.ok.inj hh))
    | .error x, .error y =>
        if h : x = y then .isTrue (congrArg Except.error h)
        else .isFalse (fun hh => h (Except.error.inj hh))
    | .ok _, .error _ => .isFalse (fun hh => Except.noConfusion hh)
    | .error _, .ok _ => .isFalse (fun hh => Except.noConfusion hh)

/-! ## Claim inputs -/

/-- The all-plus-one Code-17 syndrome with only S5 flipped (the input the
weighted random branch of `decode_syndrome` reads a random draw for). -/
def syndromeS5flipped : List (String × PyRat) :=
  [("S1", 1), ("S2", 1), ("S3", 1), ("S4", 1),
   ("S5", -1), ("S6", 1), ("S7", 1), ("S8", 1)]

/-- The Code-17 syndrome with only S1 flipped. -/
def synS1only : List (String × PyRat) :=
  [("S1", -1), ("S2", 1), ("S3", 1), ("S4", 1),
   ("S5", 1), ("S6", 1), ("S7", 1), ("S8", 1)]

/-- A Code-13 syndrome list from four flip choices (−1 where flipped). -/
def boolSyndrome (b : Bool × Bool × Bool × Bool) : List PyRat :=
  [if b.1 then -1 else 1, if b.2.1 then -1 else 1,
   if b.2.2.1 then -1 else 1, if b.2.2.2 then -1 else 1]

/-- The flipped index list of `boolSyndrome b`, in ascending order. -/
def boolFlipped (b : Bool × Bool × Bool × Bool) : List Nat :=
  (if b.1 then [0] else []) ++ (if b.2.1 then [1] else [])
    ++ (if b.2.2.1 then [2] else []) ++ (if b.2.2.2 then [3] else [])

lemma errorGates_Q (q : Nat) : errorGates (some "Q") (some q) = [] := rfl

lemma errorGates_none : errorGates none none = [] := rfl

lemma s17Gates_Q (initial : Nat) (q : Nat) :
    s17Gates initial (some "Q") (some q) = s17Gates initial none none := rfl

/-! ## The claims -/

/-- C3: the claim says `decode` is a deterministic function of its input.
The code calls `random.random()` when a single weight-0.5 Z generator is
flipped: on the all-valid syndrome with only S5 flipped, a draw of 0.5
(below the 0.7 threshold) yields a Z correction on qubit 0 while a draw of
0.9 yields none — the same syndrome mapping, two different corrections. -/
theorem C3_nondeterminism :
    decode_syndrome syndromeS5flipped [PyRat.fiveTenths] =
      Except.ok ⟨[], [0]⟩ ∧
    decode_syndrome syndromeS5flipped [PyRat.nineTenths] =
      Except.ok ⟨[], []⟩ ∧
    PyRat.fiveTenths.lt PyRat.sevenTenths = true ∧
    PyRat.nineTenths.lt PyRat.sevenTenths = false ∧
    decode_syndrome syndromeS5flipped [PyRat.fiveTenths] ≠
      decode_syndrome syndromeS5flipped [PyRat.nineTenths] := by
  decide

/-- C6 (amended): the pattern-table-with-direct-fallback policy is the
Code-13 decoder `minimum_weight_decoder`: every flipped combination whose
key misses the `error_patterns` table decodes by the Direct policy
(opposite-type correction on the first support qubit of each flipped
generator). -/
theorem C6_amended : ∀ b : Bool × Bool × Bool × Bool,
    error_patterns (flippedKey (boolFlipped b)) = none →
      minimum_weight_decoder (boolSyndrome b) = directPolicy13 (boolFlipped b) := by
  decide

theorem C6_amended_witness :
    minimum_weight_decoder (boolSyndrome (true, true, false, true)) =
      directPolicy13 (boolFlipped (true, true, false, true)) :=
  C6_amended (true, true, false, true) (by decide)

/-- C6 (counterexample to the original): the Code-17 decoder
`decode_syndrome` has no pattern table and does not fall back to the
Direct policy: with only S1 flipped (a combination no pairing matches) it
returns no correction at all, while the Direct policy on Code-17's S1
(X-type, support [0,1,3,4]) emits a Z correction on qubit 0. -/
theorem C6_counterexample :
    decode_syndrome synS1only [] = Except.ok ⟨[], []⟩ ∧
    directPolicy17 ["S1"] = ⟨[], [0]⟩ ∧
    (Correction.mk [] [] ≠ Correction.mk [] [0]) := by
  decide

/-- C7: `decode_syndrome` rejects (raises, modelled as `.error`) exactly
when some syndrome value is not +1 or −1: it succeeds iff every value is
+1 or −1, and the concrete input {"S1": 2} is rejected. -/
theorem C7_validation :
    (∀ syndrome rand,
      (∃ c, decode_syndrome syndrome rand = Except.ok c) ↔
        ∀ p ∈ syndrome, p.2 = 1 ∨ p.2 = (-1 : PyRat)) ∧
    decode_syndrome [("S1", 2)] [] = Except.error DecodeError.invalidSyndrome := by
  constructor
  · intro syndrome rand
    unfold decode_syndrome
    by_cases h : (syndrome.all fun p => decide (p.2 = 1 ∨ p.2 = -1)) = true
    · rw [if_pos h]
      simp only [List.all_eq_true, decide_eq_true_eq] at h
      exact ⟨fun _ => h, fun _ => ⟨_, rfl⟩⟩
    · rw [if_neg h]
      constructor
      · rintro ⟨c, hc⟩
        exact Except.noConfusion hc
      · intro hall
        exact absurd (List.all_eq_true.mpr fun p hp => decide_eq_true (hall p hp)) h
  · decide

/-- C8 (amended): an error type outside {X, Y, Z} raises nothing — there is
no `UnsupportedErrorTypeError` in the code.  The injection block's `elif`
chain simply applies no gate, so the run completes normally and returns
exactly the no-error result, in both codes. -/
theorem C8_amended :
    (∀ initial q, prepare_and_measure initial (some "Q") (some q) =
        prepare_and_measure initial none none) ∧
    (∀ q, surface13_circuit (some "Q") (some q) = surface13_circuit none none) := by
  refine ⟨fun initial q => ?_, fun q => ?_⟩
  · simp only [prepare_and_measure, s17Gates_Q]
  · simp only [surface13_circuit, errorGates_Q, errorGates_none]

/-- C8 (counterexample to the original): the concrete run
`run(initial=0, error={"type": "Q", "qubit": 0})` of the claim completes
normally (no raise) with the untouched no-error output, in both codes. -/
theorem C8_counterexample :
    prepare_and_measure 0 (some "Q") (some 0) = prepare_and_measure 0 none none ∧
    surface13_circuit (some "Q") (some 0) = surface13_circuit none none := by
  constructor
  · simp only [prepare_and_measure, s17Gates_Q]
  · simp only [surface13_circuit, errorGates_Q, errorGates_none]

/-- C10: on every valid syndrome and every outcome of the random draws,
every qubit index in both correction lists returned by `decode_syndrome`
is in the data-qubit range 0..8 (the source filters `0 <= q < 9`). -/
theorem C10_range :
    ∀ syndrome rand c, decode_syndrome syndrome rand = Except.ok c →
      ∀ q, q ∈ c.X ∨ q ∈ c.Z → q < 9 := by
  intro syndrome rand c hc q hq
  unfold decode_syndrome at hc
  by_cases h : (syndrome.all fun p => decide (p.2 = 1 ∨ p.2 = -1)) = true
  · rw [if_pos h] at hc
    injection hc with hc2
    subst hc2
    cases hq with
    | inl hx => exact of_decide_eq_true (List.mem_filter.mp hx).2
    | inr hz => exact of_decide_eq_true (List.mem_filter.mp hz).2
  · rw [if_neg h] at hc
    exact Except.noConfusion hc

theorem C10_range_witness : (0 : Nat) < 9 :=
  C10_range syndromeS5flipped [PyRat.fiveTenths] ⟨[], [0]⟩ (by decide) 0
    (Or.inr (by decide))

/-! ## Evaluated circuit values (kernel computations, shared by the claims) -/

/-- The raw Code-13 run with no error: every reported value is exactly 0. -/
lemma s13_none_val : surface13_circuit none none = [0, 0, 0, 0, 0] := by
  decide!

/-- The squared norm of the Code-13 final state (16 = 2^4 for its 4
Hadamards): the stored value of what a +1 expectation would report. -/
lemma s13_norm : QVec.expvalZs [] (applyCircuit (errorGates none none ++ s13MeasGates)
    (QVec.initState 13)) = ⟨16, 0, 0, 0⟩ := by
  rw [norm_applyCircuit (errorGates none none ++ s13MeasGates) (by decide), norm_initState]
  decide

/-- The raw Code-13 run with an X error on qubit 0: also all zeros. -/
lemma s13_X0_val : surface13_circuit (some "X") (some 0) = [0, 0, 0, 0, 0] := by
  decide!

/-- An X error on qubit 0 leaves the whole Code-13 output unchanged. -/
lemma s13_X0_eq : surface13_circuit (some "X") (some 0) = surface13_circuit none none := by
  rw [s13_X0_val, s13_none_val]

/-- 13→17 conversion, initial 0: the target logical-Z raw value is 0. -/
lemma convA0_logical : QVec.expvalZs [0, 4, 8]
    (applyCircuit (conv13Gates 0 none none) (QVec.initState 9)) = 0 := by
  rw [conv13_0_split, expvalZs_split_eval [0, 4, 8] convA0pre convPost17 convCZ17
    (List.range' 1 8) (by decide) (by decide)]
  have hval : QVec.expvalZs [0, 4, 8]
      (applyCircuit (convA0pre ++ convPost17) (QVec.initState 9)) = 0 := by
    decide!
  rw [hval]
  decide

/-- 13→17 conversion, initial 1: the target logical-Z raw value is 0. -/
lemma convA1_logical : QVec.expvalZs [0, 4, 8]
    (applyCircuit (conv13Gates 1 none none) (QVec.initState 10)) = 0 := by
  rw [conv13_1_split, expvalZs_split_eval2 [0, 4, 8] convA1pre convA1post
    (9 :: List.range' 1 8) (by decide)]
  have hval : QVec.expvalZs [0, 4, 8]
      (applyCircuit (convA1pre ++ convA1post) (QVec.initState 10)) = 0 := by
    decide!
  rw [hval]
  decide

/-- 17→13 conversion, initial 0: the target logical-Z raw value is 0. -/
lemma convB0_logical : QVec.expvalZs [0, 3, 6]
    (applyCircuit (conv17Gates 0 none none) (QVec.initState 9)) = 0 := by
  rw [conv17_0_split, expvalZs_split_eval [0, 3, 6] convB0pre convPost13 convCZ13
    (List.range' 1 8) (by decide) (by decide)]
  have hval : QVec.expvalZs [0, 3, 6]
      (applyCircuit (convB0pre ++ convPost13) (QVec.initState 9)) = 0 := by
    decide!
  rw [hval]
  decide

/-- 17→13 conversion, initial 1: the target logical-Z raw value is 0. -/
lemma convB1_logical : QVec.expvalZs [0, 3, 6]
    (applyCircuit (conv17Gates 1 none none) (QVec.initState 10)) = 0 := by
  rw [conv17_1_split, expvalZs_split_eval2 [0, 3, 6] convB1pre convB1post
    (9 :: List.range' 1 8) (by decide)]
  have hval : QVec.expvalZs [0, 3, 6]
      (applyCircuit (convB1pre ++ convB1post) (QVec.initState 10)) = 0 := by
    decide!
  rw [hval]
  decide

/-- The "reset" rotation pair RY(−π/2); RY(π/2) of the converter, on one wire. -/
def resetPairGates (w : Nat) : List Gate := [.RYn w, .RYp w]

/-- C1 (amended): for both conversion directions and both initial values,
the no-error conversion's reported target logical-Z raw value is exactly 0
— not the ±1 of the claim.  (The list returned by the circuit ends with the
target logical-Z expectation.) -/
theorem C1_amended :
    (code_conversion_circuit "surface13" "surface17" 0 none none).getLast? = some 0 ∧
    (code_conversion_circuit "surface13" "surface17" 1 none none).getLast? = some 0 ∧
    (code_conversion_circuit "surface17" "surface13" 0 none none).getLast? = some 0 ∧
    (code_conversion_circuit "surface17" "surface13" 1 none none).getLast? = some 0 := by
  refine ⟨?_, ?_, ?_, ?_⟩
  · rw [conv_13_17_0_red, convA0_logical]
  · rw [conv_13_17_1_red, convA1_logical]
  · rw [conv_17_13_0_red, convB0_logical]
  · rw [conv_17_13_1_red, convB1_logical]

/-- C1 (counterexample to the original): in the 13→17, initial-0 conversion
the reported logical-Z raw value is 0 while the state's squared norm is
2^28, so the physical logical-Z expectation is exactly 0: it is neither the
claimed +1 (stored 2^28) nor −1 (stored −2^28). -/
theorem C1_counterexample :
    (code_conversion_circuit "surface13" "surface17" 0 none none).getLast? = some 0 ∧
    QVec.expvalZs [] (applyCircuit (conv13Gates 0 none none) (QVec.initState 18)) =
      ⟨268435456, 0, 0, 0⟩ ∧
    (0 : Amp) ≠ ⟨268435456, 0, 0, 0⟩ ∧
    (0 : Amp) ≠ Amp.neg ⟨268435456, 0, 0, 0⟩ := by
  refine ⟨?_, ?_, by decide, by decide⟩
  · rw [conv_13_17_0_red, convA0_logical]
  · rw [norm_applyCircuit (conv13Gates 0 none none) (by decide), norm_initState]
    decide

/-- The logical readout of `run_surface17` is the sign collapse
`1.0 if logical_z > 0 else -1.0` of the raw circuit value. -/
lemma run17_logical_eq (initial : Nat) (et : Option String) (eq : Option Nat) :
    (run_surface17 initial et eq).2 =
      if Amp.gtZero (prepare_and_measure initial et eq).2 then (1 : PyRat) else -1 := rfl

/-- C2 (amended): for Code-17, `run_surface17(0, None, None)` reports the
all-+1 syndrome and logical 1.0, as claimed.  For Code-13,
`surface13_circuit(None, None)` returns raw expectation values and every
one of them — the four syndrome entries and the logical-Z — is exactly 0,
not +1 (the squared norm 2^4 = 16 is what a +1 would store). -/
theorem C2_amended :
    (run_surface17 0 none none).1 = stabNames17.map (fun s => (s, 1)) ∧
    (run_surface17 0 none none).2 = 1 ∧
    surface13_circuit none none = [0, 0, 0, 0, 0] ∧
    QVec.expvalZs [] (applyCircuit (errorGates none none ++ s13MeasGates)
      (QVec.initState 13)) = ⟨16, 0, 0, 0⟩ := by
  refine ⟨run17_noerr_syndrome 0, ?_, s13_none_val, s13_norm⟩
  rw [run17_logical_eq 0 none none, pm0_logical_value]
  decide

/-- C2 (counterexample to the original): the Code-13 no-error run's
logical-Z (the last returned value) is raw 0; a +1 would be the stored
squared norm 16 and a −1 its negation, and 0 is neither. -/
theorem C2_counterexample :
    (surface13_circuit none none).getLast? = some 0 ∧
    QVec.expvalZs [] (applyCircuit (errorGates none none ++ s13MeasGates)
      (QVec.initState 13)) = ⟨16, 0, 0, 0⟩ ∧
    (0 : Amp) ≠ ⟨16, 0, 0, 0⟩ ∧
    (0 : Amp) ≠ Amp.neg ⟨16, 0, 0, 0⟩ := by
  refine ⟨?_, s13_norm, by decide, by decide⟩
  rw [s13_none_val]
  decide

/-- C4: the claim says RY(−π/2); RY(π/2) resets a qubit to |0⟩ regardless
of its prior state.  In fact the pair is the identity (stored: it doubles
every amplitude): on |1⟩ the qubit stays in |1⟩ (⟨Z⟩ < 0).  Consequently
after step 4 of the 13→17 conversion (source preparation then the "reset"
loop) data qubit 3 is not in the ground state: its ⟨Z⟩ is raw 0 while the
squared norm is 2^20, so ⟨Z_3⟩ is physically 0, not the +1 of |0⟩. -/
theorem C4_reset_pair :
    (∀ a b : Amp,
      applyCircuit (resetPairGates 0) (QVec.node (QVec.leaf a) (QVec.leaf b)) =
        QVec.node (QVec.leaf a.double) (QVec.leaf b.double)) ∧
    applyCircuit (resetPairGates 0) (QVec.node (QVec.leaf 0) (QVec.leaf 1)) =
      QVec.node (QVec.leaf 0) (QVec.leaf ⟨2, 0, 0, 0⟩) ∧
    QVec.expvalZs [0] (applyCircuit (resetPairGates 0)
      (QVec.node (QVec.leaf 0) (QVec.leaf 1))) = ⟨-4, 0, 0, 0⟩ ∧
    Amp.gtZero ⟨-4, 0, 0, 0⟩ = false ∧
    QVec.expvalZs [3] (applyCircuit conv13PrepResetGates (QVec.initState 18)) = 0 ∧
    QVec.expvalZs [] (applyCircuit conv13PrepResetGates (QVec.initState 18)) =
      ⟨1048576, 0, 0, 0⟩ ∧
    (0 : Amp) ≠ ⟨1048576, 0, 0, 0⟩ := by
  refine ⟨?_, by decide, by decide, by decide, ?_, ?_, by decide⟩
  · intro a b
    cases a with
    | mk ara arb aia aib =>
      cases b with
      | mk bra brb bia bib =>
        simp only [resetPairGates, applyCircuit, applyGate, QVec.applyRYn,
          QVec.applyRYp, QVec.vadd, QVec.vsub, QVec.vneg, Amp.add, Amp.neg,
          Amp.double, if_pos, QVec.node.injEq, QVec.leaf.injEq, Amp.mk.injEq]
        omega
  · rw [expvalZs_circuit_init_le conv13PrepResetGates [3] 9 (by decide)
      (by decide) 18 (by omega), conv13PrepReset_split,
      expvalZs_split_eval2 [3] convA0pre [] (List.range' 1 8) (by decide)]
    have hval : QVec.expvalZs [3]
        (applyCircuit (convA0pre ++ []) (QVec.initState 9)) = 0 := by
      decide!
    rw [hval]
    decide
  · rw [norm_applyCircuit conv13PrepResetGates (by decide), norm_initState]
    decide

/-- C5 (amended): only `run_surface17` reports relative to a no-error
reference run of the same protocol (and with no error its syndrome is
identically +1); `surface13_circuit` — like the converter — returns raw
expectation values with no reference comparison, e.g. its first syndrome
entry in the no-error run is the raw 0. -/
theorem C5_amended :
    (∀ initial et eq, (run_surface17 initial et eq).1 =
        relSyndrome (prepare_and_measure initial et eq).1
          (prepare_and_measure initial none none).1) ∧
    (∀ initial, (run_surface17 initial none none).1 =
        stabNames17.map (fun s => (s, 1))) ∧
    (surface13_circuit none none).head? = some 0 := by
  refine ⟨fun initial et eq => ?_, fun initial => run17_noerr_syndrome initial, ?_⟩
  · show (if et = none ∧ eq = none then
        relSyndrome (prepare_and_measure initial et eq).1
          (prepare_and_measure initial none none).1
      else relSyndrome (prepare_and_measure initial et eq).1
          (prepare_and_measure initial none none).1) = _
    exact ite_self _
  · rw [s13_none_val]
    decide

/-- C5 (counterexample to the original): `surface13_circuit` does not
report relative syndromes.  In its no-error run the reference equals the
run itself, so the claimed relative formula mandates every reported entry
be +1 — stored, the squared norm 16 — but the first reported entry is the
raw 0, which is neither +1 nor −1 in stored form. -/
theorem C5_counterexample :
    (surface13_circuit none none).head? = some 0 ∧
    QVec.expvalZs [] (applyCircuit (errorGates none none ++ s13MeasGates)
      (QVec.initState 13)) = ⟨16, 0, 0, 0⟩ ∧
    (0 : Amp) ≠ ⟨16, 0, 0, 0⟩ := by
  refine ⟨?_, s13_norm, by decide⟩
  rw [s13_none_val]
  decide

/-- C9 (amended): the X/Z/Y flip-locality pattern is true of the
combinatorial model `simulate_surface13`: an X error on q drives entry i
to −1 exactly for Z-type generators containing q, a Z error exactly for
X-type ones, a Y error for their union; concretely on qubit 0 the outputs
are [1,−1,1,1,1], [−1,1,1,1,−1] and [−1,−1,1,1,−1] (S2 only, S1 only,
and both). -/
theorem C9_amended :
    (∀ q : Fin 9, ∀ i : Fin 4,
      (((simulate_surface13 (some "X") (some q.val)).getD i.val 0 = -1) ↔
        ((S13_STABILIZERS.getD i.val ⟨"", .X, [], 0⟩).ptype = PauliType.Z ∧
          q.val ∈ (S13_STABILIZERS.getD i.val ⟨"", .X, [], 0⟩).data)) ∧
      (((simulate_surface13 (some "Z") (some q.val)).getD i.val 0 = -1) ↔
        ((S13_STABILIZERS.getD i.val ⟨"", .X, [], 0⟩).ptype = PauliType.X ∧
          q.val ∈ (S13_STABILIZERS.getD i.val ⟨"", .X, [], 0⟩).data)) ∧
      (((simulate_surface13 (some "Y") (some q.val)).getD i.val 0 = -1) ↔
        q.val ∈ (S13_STABILIZERS.getD i.val ⟨"", .X, [], 0⟩).data)) ∧
    simulate_surface13 (some "X") (some 0) = [1, -1, 1, 1, 1] ∧
    simulate_surface13 (some "Z") (some 0) = [-1, 1, 1, 1, -1] ∧
    simulate_surface13 (some "Y") (some 0) = [-1, -1, 1, 1, -1] := by
  decide

/-- C9 (counterexample to the original): in the actual measured circuit
`surface13_circuit`, an X error on qubit 0 changes nothing — the whole
output equals the no-error output — so S2 (the Z-type generator whose
support contains 0) is not flipped. -/
theorem C9_counterexample :
    surface13_circuit (some "X") (some 0) = surface13_circuit none none ∧
    (S13_STABILIZERS.getD 1 ⟨"", .X, [], 0⟩).name = "S2" ∧
    (0 : Nat) ∈ (S13_STABILIZERS.getD 1 ⟨"", .X, [], 0⟩).data := by
  refine ⟨s13_X0_eq, by decide, by decide⟩
